import Mathlib

/-!
The pipeline-start program: a shallow embedding of the pipeline engine and its stages.

The Go program wires a `Source`, an ordered list of `Stage`s and a
`Destination` into one cancellable, fail-fast run (`Pipeline.Run`).

Modelling decisions, all stated where they are made:

* Go maps are association tables; a nil map is `none`.  A single call is described with
  maps as values.  Where several messages are run and their maps may be shared objects,
  the maps are references into a heap (`MessageRef`, `RefRun`).
* Go `error` values are a small inductive type; `errors.Is` walks the `%w` chain.
* The context handed to `Run` is described by the observation index at which it
  becomes cancelled; every look at the context (`ctx.Err()`, the `ctx.Done()`
  case of a `select`, a callee being handed `ctx`) is one observation.
* The producer goroutine is a state machine; what a `select` finds ready is
  computed from its state, and a schedule resolves Go's free choice among the
  ready cases.
-/

set_option autoImplicit false

namespace PipelineStart

/-! ## Errors -/

/-- Go `error` values used by the program. -/
inductive GoError where
  /-- Go `errors.New(text)` -/
  | New (text : String)
  /-- Go `fmt.Errorf(format, wrapped, args...)` where `format` starts with the `%w` verb -/
  | Errorf (format : String) (wrapped : GoError) (args : List String)
  /-- Go `context.Canceled` -/
  | Canceled
  deriving DecidableEq, Repr

/-- Go `errors.Is(err, target)`: `err` or an error it wraps is `target`. -/
def GoError.Is : GoError → GoError → Bool
  | .Errorf format wrapped args, target =>
      decide (GoError.Errorf format wrapped args = target) || wrapped.Is target
  | err, target => decide (err = target)

/-- Go `var ErrSchemaNotFound = errors.New("schema not found")` -/
def ErrSchemaNotFound : GoError := GoError.New "schema not found"

/-- Go `var ErrMissingField = errors.New("required payload field missing")` -/
def ErrMissingField : GoError := GoError.New "required payload field missing"

/-! ## Maps and messages -/

/-- Values a payload field can hold (`any`); no code path inspects them. -/
inductive GoAny where
  | str (s : String)
  | num (n : Int)
  | bool (b : Bool)
  | null
  deriving DecidableEq, Repr

/-- Go `map[string]V`: `none` is the nil map, `some t` a table read at the first entry of a key. -/
abbrev GoMap (V : Type) := Option (List (String × V))

/-- Go `v, ok := m[k]`: `none` when `ok` is false.  Reading a nil map finds nothing. -/
def GoMap.get? {V : Type} (m : GoMap V) (k : String) : Option V :=
  match m with
  | none => none
  | some t => t.lookup k

/-- Table update behind `m[k] = v`: overwrite the entry of `k`, or add one. -/
def tableSet {V : Type} (k : String) (v : V) : List (String × V) → List (String × V)
  | [] => [(k, v)]
  | (k', v') :: rest => if k' = k then (k, v) :: rest else (k', v') :: tableSet k v rest

/-- Message is the envelope that flows through the pipeline. -/
structure Message where
  Type_ : String
  Version : String
  Payload : GoMap GoAny
  Meta : GoMap String
  deriving DecidableEq, Repr

/-- The zero value `Message{}`. -/
def Message.zero : Message := { Type_ := "", Version := "", Payload := none, Meta := none }

/-! ## Stages -/

/-- The `Stage` interface: `Process(ctx, msg) (Message, error)`.  A callee sees the
context through `ctx.Err()`, which is what it is handed here. -/
structure Stage where
  Process : Option GoError → Message → Message × Option GoError

/-- Schema is a minimal schema definition for a message. -/
structure Schema where
  RequiredFields : List String
  deriving DecidableEq, Repr

/-- ValidationStage validates messages by type+version schema. -/
structure ValidationStage where
  Schemas : GoMap (GoMap Schema)

/-- The `for _, field := range schema.RequiredFields` loop of `ValidationStage.Process`:
the error it returns, or `none` when it runs to its end. -/
def ValidationStage.checkFields (msg : Message) : List String → Option GoError
  | [] => none
  | field :: rest =>
    if msg.Payload.isNone then
      some (GoError.Errorf "%w: %s" ErrMissingField [field])
    else if (msg.Payload.get? field).isNone then
      some (GoError.Errorf "%w: %s" ErrMissingField [field])
    else
      ValidationStage.checkFields msg rest

/-- Method `ValidationStage.Process`: validates a message using the schema chosen by type and version. -/
def ValidationStage.Process (s : ValidationStage) (_ctx : Option GoError) (msg : Message) :
    Message × Option GoError :=
  match s.Schemas.get? msg.Type_ with
  | none =>
    (Message.zero,
      some (GoError.Errorf "%w: type=%q version=%q" ErrSchemaNotFound [msg.Type_, msg.Version]))
  | some versions =>
    match versions.get? msg.Version with
    | none =>
      (Message.zero,
        some (GoError.Errorf "%w: type=%q version=%q" ErrSchemaNotFound [msg.Type_, msg.Version]))
    | some schema =>
      match ValidationStage.checkFields msg schema.RequiredFields with
      | some err => (Message.zero, some err)
      | none => (msg, none)

/-- A `*ValidationStage` used as a `Stage`. -/
def ValidationStage.toStage (s : ValidationStage) : Stage := { Process := s.Process }

/-- SetMetaStage adds one metadata key/value to each message. -/
structure SetMetaStage where
  Key : String
  Value : String
  deriving DecidableEq, Repr

/-- Method `SetMetaStage.Process`: applies the metadata change and returns the updated message. -/
def SetMetaStage.Process (s : SetMetaStage) (_ctx : Option GoError) (msg : Message) :
    Message × Option GoError :=
  let msg1 : Message := if msg.Meta.isNone then { msg with Meta := some [] } else msg
  let msg2 : Message := { msg1 with Meta := msg1.Meta.map (tableSet s.Key s.Value) }
  (msg2, none)

/-- A `*SetMetaStage` used as a `Stage`. -/
def SetMetaStage.toStage (s : SetMetaStage) : Stage := { Process := s.Process }

/-- Go `var errStage = errors.New("stage failed")` of the test file. -/
def errStage : GoError := GoError.New "stage failed"

/-- The test file's `failingStage`: fails on every message. -/
def failingStage : Stage := { Process := fun _ctx _msg => (Message.zero, some errStage) }

/-! ## Context -/

/-- The `context.Context` handed to `Run`.  The looks the program takes at it are numbered
0, 1, 2, ...; `cancelAt = some t` says the context is cancelled from look `t` on (`some 0`:
already cancelled when `Run` is called), `none` that it is never cancelled. -/
structure Context where
  cancelAt : Option Nat
  deriving DecidableEq, Repr

/-- Go `ctx.Err()` at look `now`: `context.Canceled` once cancelled, nil before. -/
def Context.Err (ctx : Context) (now : Nat) : Option GoError :=
  match ctx.cancelAt with
  | none => none
  | some t => if t ≤ now then some GoError.Canceled else none

/-- Go `context.Background()`: never cancelled. -/
def Context.Background : Context := { cancelAt := none }

/-! ## Sources -/

/-- What one `select` of `Run` can take. -/
inductive Event where
  /-- Go `case <-ctx.Done()` -/
  | ctxDone
  /-- Go `case err, ok := <-errCh` with `ok` true (`err` may be nil) -/
  | errValue (err : Option GoError)
  /-- Go `case err, ok := <-errCh` with `ok` false -/
  | errClosed
  /-- Go `case msg, ok := <-msgCh` with `ok` true -/
  | msgValue (msg : Message)
  /-- Go `case msg, ok := <-msgCh` with `ok` false -/
  | msgClosed
  deriving DecidableEq, Repr

/-- Whether the channel variable an event is received from is still non-nil in `Run`
(a receive from a nil channel is never ready).  `ctxDone` is no channel of the source. -/
def Event.listened (msgOpen errOpen : Bool) : Event → Bool
  | .ctxDone => false
  | .errValue _ => errOpen
  | .errClosed => errOpen
  | .msgValue _ => msgOpen
  | .msgClosed => msgOpen

/-- The `Source` interface, `Start(ctx) (<-chan Message, <-chan error)`, seen from the
receiving end: the background work behind the two channels is a state machine over `π`. -/
structure Source (π : Type) where
  /-- the background work as `Start` leaves it -/
  Start : π
  /-- the work runs on its own up to its next channel operation; `cancelled` is what the
  context shows by then and `notices` whether the work looks at it in time -/
  advance : π → (cancelled : Bool) → (notices : Bool) → π
  /-- the receives that can complete now, each with the state the work is in afterwards -/
  offers : π → List (Event × π)
  /-- whether the message channel `Start` returns is non-nil -/
  msgCh : Bool := true
  /-- whether the error channel `Start` returns is non-nil -/
  errCh : Bool := true

/-- SliceSource emits a fixed in-memory slice of messages. -/
structure SliceSource where
  Messages : List Message
  deriving DecidableEq, Repr

/-- The goroutine of `SliceSource.Start`: the messages of the `range` loop not yet sent, and
whether the function has returned (its deferred `close(errCh)`, `close(msgCh)` have run). -/
structure SliceProducer where
  pending : List Message
  exited : Bool
  deriving DecidableEq, Repr

/-- Method `SliceSource.Start`: both channels are made, the goroutine is started on all messages. -/
def SliceSource.Start (s : SliceSource) : SliceProducer :=
  { pending := s.Messages, exited := false }

/-- The goroutine up to its next send: it returns when the `range` is exhausted, or when it
sees the context cancelled (`ctx.Err() != nil`, or the `ctx.Done()` case of its `select`);
otherwise it stands at `msgCh <- msg`. -/
def SliceProducer.advance (g : SliceProducer) (cancelled notices : Bool) : SliceProducer :=
  if g.exited then g
  else
    match g.pending with
    | [] => { g with exited := true }
    | _ :: _ => if cancelled && notices then { g with exited := true } else g

/-- What the receiver can get: both channels closed once the goroutine has returned,
otherwise the message it stands at (unbuffered channel), which it then leaves behind. -/
def SliceProducer.offers (g : SliceProducer) : List (Event × SliceProducer) :=
  if g.exited then [(Event.errClosed, g), (Event.msgClosed, g)]
  else
    match g.pending with
    | [] => []
    | msg :: rest => [(Event.msgValue msg, { g with pending := rest })]

/-- The goroutine of a slice source left to itself once `Run` has returned: nobody receives
from its channels any more, so a send it stands at never completes and the `ctx.Done()` case
of its `select` is the only one that can be taken; `cancelled` says whether the context is
cancelled, then or later.  It ends up returned, both channels closed, or stays at its send. -/
def SliceProducer.afterRun (g : SliceProducer) (cancelled : Bool) : SliceProducer :=
  g.advance cancelled true

/-- A `*SliceSource` used as a `Source`. -/
def SliceSource.toSource (s : SliceSource) : Source SliceProducer :=
  { Start := s.Start, advance := SliceProducer.advance, offers := SliceProducer.offers,
    msgCh := true, errCh := true }

/-! ## Destinations -/

/-- The `Destination` interface, `Consume(ctx, msg) error`, with the state `σ` the
receiver object holds. -/
structure Destination (σ : Type) where
  state : σ
  Consume : σ → Option GoError → Message → σ × Option GoError

/-- MemoryDestination stores consumed messages in memory. -/
structure MemoryDestination where
  Messages : List Message
  deriving DecidableEq, Repr

/-- Method `MemoryDestination.Consume`: appends the message to memory. -/
def MemoryDestination.Consume (d : MemoryDestination) (_ctx : Option GoError) (msg : Message) :
    MemoryDestination × Option GoError :=
  ({ Messages := d.Messages ++ [msg] }, none)

/-- A `*MemoryDestination` used as a `Destination`. -/
def MemoryDestination.toDestination (d : MemoryDestination) : Destination MemoryDestination :=
  { state := d, Consume := MemoryDestination.Consume }

/-! ## The engine -/

/-- Pipeline wires Source -> []Stage -> Destination.  A nil interface is `none`. -/
structure Pipeline (π σ : Type) where
  Source : Option (Source π)
  Stages : List Stage
  Sink : Option (Destination σ)

/-- The calls `Run` makes on its collaborators, recorded in the order they happen. -/
inductive Call where
  /-- Call `p.Source.Start(ctx)` -/
  | Start
  /-- Call `p.Stages[stage].Process(ctx, msg)` -/
  | Process (stage : Nat) (msg : Message)
  /-- Call `p.Sink.Consume(ctx, msg)` -/
  | Consume (msg : Message)
  deriving DecidableEq, Repr

/-- How a run ends. -/
inductive Ret where
  /-- Method `Run` returned `err` (nil is `none`) -/
  | returned (err : Option GoError)
  /-- Method `Run` stands at a `select` none of whose cases can ever be taken -/
  | blocked
  /-- the model was given too few loop iterations -/
  | outOfFuel
  deriving DecidableEq, Repr

/-- What there is to see of a run when it ends. -/
structure RunResult (π σ : Type) where
  ret : Ret
  /-- the sink object's state (`none`: the pipeline has no sink) -/
  sink : Option σ
  /-- the background work of the source (`none`: `Start` was never called) -/
  producer : Option π
  calls : List Call
  deriving DecidableEq, Repr

/-- The local state of `Run` inside its `for` loop. -/
structure RunState (π σ : Type) where
  /-- Go `msgCh != nil` -/
  msgOpen : Bool
  /-- Go `errCh != nil` -/
  errOpen : Bool
  producer : π
  sink : σ
  /-- number of the next look at the context -/
  now : Nat
  calls : List Call
  deriving DecidableEq, Repr

/-- Go's free choices at one `select`: whether a producer that could see the cancellation
does, and which of the ready cases is taken. -/
structure Choice where
  notices : Bool
  pick : Nat
  deriving DecidableEq, Repr

/-- Where the loop over the stages leaves: the value of `current`, the error it returned
with (`none`: it ran to its end), the next look and the calls made. -/
structure StagesResult where
  current : Message
  err : Option GoError
  now : Nat
  calls : List Call
  deriving DecidableEq, Repr

/-- Go `for _, stage := range p.Stages { ... }` from stage index `i` on. -/
def Pipeline.runStages (ctx : Context) :
    List Stage → Nat → Message → Nat → List Call → StagesResult
  | [], _, current, now, calls => { current := current, err := none, now := now, calls := calls }
  | stage :: rest, i, current, now, calls =>
    match ctx.Err now with
    | some err => { current := current, err := some err, now := now + 1, calls := calls }
    | none =>
      match stage.Process (ctx.Err (now + 1)) current with
      | (_, some err) =>
        { current := current, err := some err, now := now + 2,
          calls := calls ++ [Call.Process i current] }
      | (next, none) =>
        Pipeline.runStages ctx rest (i + 1) next (now + 2) (calls ++ [Call.Process i current])

/-- One pass of the loop body ends in the next iteration or in a `return`. -/
inductive Step (π σ : Type) where
  | next (st : RunState π σ)
  | done (err : Option GoError) (st : RunState π σ)

/-- The body of the `select` for the case taken. -/
def Pipeline.handle {π σ : Type} (stages : List Stage)
    (consume : σ → Option GoError → Message → σ × Option GoError) (ctx : Context)
    (st : RunState π σ) : Event → Step π σ
  | .ctxDone => Step.done (ctx.Err st.now) { st with now := st.now + 1 }
  | .errClosed => Step.next { st with errOpen := false }
  | .errValue (some err) => Step.done (some err) st
  | .errValue none => Step.next st
  | .msgClosed => Step.next { st with msgOpen := false }
  | .msgValue msg =>
    let r := Pipeline.runStages ctx stages 0 msg st.now st.calls
    match r.err with
    | some err => Step.done (some err) { st with now := r.now, calls := r.calls }
    | none =>
      match ctx.Err r.now with
      | some err => Step.done (some err) { st with now := r.now + 1, calls := r.calls }
      | none =>
        match consume st.sink (ctx.Err (r.now + 1)) r.current with
        | (sink, some err) =>
          Step.done (some err)
            { st with sink := sink, now := r.now + 2, calls := r.calls ++ [Call.Consume r.current] }
        | (sink, none) =>
          Step.next
            { st with sink := sink, now := r.now + 2, calls := r.calls ++ [Call.Consume r.current] }

/-- The cases of the `select` that are ready at look `st.now`, the producer having run up to
its next channel operation: `ctx.Done()` when the context is cancelled, and what the producer
offers on the channels still listened to. -/
def Pipeline.ready {π σ : Type} (src : PipelineStart.Source π) (ctx : Context) (notices : Bool)
    (st : RunState π σ) : List (Event × π) :=
  let cancelled := (ctx.Err st.now).isSome
  let prod := src.advance st.producer cancelled notices
  (if cancelled then [(Event.ctxDone, prod)] else []) ++
    (src.offers prod).filter (fun c => c.1.listened st.msgOpen st.errOpen)

/-- The result of a run that ends in state `st`. -/
def RunState.result {π σ : Type} (st : RunState π σ) (ret : Ret) : RunResult π σ :=
  { ret := ret, sink := some st.sink, producer := some st.producer, calls := st.calls }

/-- Go `for msgCh != nil || errCh != nil { select { ... } }`, at most `fuel` iterations. -/
def Pipeline.loop {π σ : Type} (src : PipelineStart.Source π) (stages : List Stage)
    (consume : σ → Option GoError → Message → σ × Option GoError) (ctx : Context)
    (sched : Nat → Choice) : Nat → RunState π σ → RunResult π σ
  | fuel, st =>
    if !(st.msgOpen || st.errOpen) then st.result (Ret.returned none)
    else
      match fuel with
      | 0 => st.result Ret.outOfFuel
      | fuel + 1 =>
        let cases := Pipeline.ready src ctx (sched st.now).notices st
        match cases[(sched st.now).pick % cases.length]? with
        | none =>
          { st with producer :=
              src.advance st.producer (ctx.Err st.now).isSome (sched st.now).notices }.result
            Ret.blocked
        | some (ev, prod) =>
          match Pipeline.handle stages consume ctx
              { st with producer := prod, now := st.now + 1 } ev with
          | Step.done err st1 => st1.result (Ret.returned err)
          | Step.next st1 => Pipeline.loop src stages consume ctx sched fuel st1

/-- Method `Pipeline.Run`: executes Source -> Stages -> Destination. -/
def Pipeline.Run {π σ : Type} (p : Pipeline π σ) (ctx : Context) (sched : Nat → Choice)
    (fuel : Nat) : RunResult π σ :=
  match ctx.Err 0 with
  | some err =>
    { ret := Ret.returned (some err), sink := p.Sink.map (fun d => d.state), producer := none,
      calls := [] }
  | none =>
    match p.Source with
    | none =>
      { ret := Ret.returned (some (GoError.New "pipeline source is required")),
        sink := p.Sink.map (fun d => d.state), producer := none, calls := [] }
    | some src =>
      match p.Sink with
      | none =>
        { ret := Ret.returned (some (GoError.New "pipeline sink is required")),
          sink := none, producer := none, calls := [] }
      | some sink =>
        Pipeline.loop src p.Stages sink.Consume ctx sched fuel
          { msgOpen := src.msgCh, errOpen := src.errCh, producer := src.Start,
            sink := sink.state, now := 1, calls := [Call.Start] }

/-! ## Vocabulary of the properties -/

/-- A message threaded through the stages in order, the context not cancelled: the output
of one stage is the input of the next. -/
def thread (stages : List Stage) (m : Message) : Message :=
  stages.foldl (fun cur stage => (stage.Process none cur).1) m

/-- The message stage `i` is given when `m` enters the chain. -/
def inputOf (stages : List Stage) (i : Nat) (m : Message) : Message :=
  thread (stages.take i) m

/-- No stage fails on the message it is given when `m` enters the chain. -/
def passesAll (stages : List Stage) (m : Message) : Prop :=
  ∀ (i : Nat) (h : i < stages.length),
    ((stages.get ⟨i, h⟩).Process none (inputOf stages i m)).2 = none

/-- Stage `i` is the first that fails when `m` enters the chain, and it fails with `e`. -/
def firstFailure (stages : List Stage) (m : Message) (i : Nat) (e : GoError) : Prop :=
  (∀ (j : Nat) (h : j < stages.length), j < i →
      ((stages.get ⟨j, h⟩).Process none (inputOf stages j m)).2 = none) ∧
  ∃ h : i < stages.length, ((stages.get ⟨i, h⟩).Process none (inputOf stages i m)).2 = some e

/-- The calls of a message that goes through the whole chain and into the sink. -/
def callsOf (stages : List Stage) (m : Message) : List Call :=
  (List.range stages.length).map (fun i => Call.Process i (inputOf stages i m)) ++
    [Call.Consume (thread stages m)]

/-- The calls of a message on which stage `i` is the last one invoked. -/
def callsUpTo (stages : List Stage) (m : Message) (i : Nat) : List Call :=
  (List.range (i + 1)).map (fun j => Call.Process j (inputOf stages j m))

instance passesAll.decidable (stages : List Stage) (m : Message) :
    Decidable (passesAll stages m) := by
  unfold passesAll; exact inferInstance

instance firstFailure.decidable (stages : List Stage) (m : Message) (i : Nat) (e : GoError) :
    Decidable (firstFailure stages m i e) := by
  unfold firstFailure; exact inferInstance

/-! ## Values of the test file -/

/-- The valid message of `TestPipelineRunWithValidationAndTransform`. -/
def testMessage : Message :=
  { Type_ := "user.created", Version := "v1",
    Payload := some [("id", GoAny.str "u_1"), ("email", GoAny.str "a@example.com")],
    Meta := none }

/-- The message of `TestPipelineRunReturnsStageError`. -/
def plainMessage : Message := { Type_ := "x", Version := "v1", Payload := none, Meta := none }

/-- The validation stage of the tests: `user.created`/`v1` requires `id` and `email`. -/
def testValidation : ValidationStage :=
  { Schemas := some [("user.created", some [("v1", { RequiredFields := ["id", "email"] })])] }

/-- The metadata stage of the tests. -/
def testSetMeta : SetMetaStage := { Key := "processed_by", Value := "set-meta" }

/-- The tables of `main`: `user.created`/`v1` and `user.updated`/`v1` both require `id` and
`email`. -/
def demoValidation : ValidationStage :=
  { Schemas := some
      [("user.created", some [("v1", { RequiredFields := ["id", "email"] })]),
       ("user.updated", some [("v1", { RequiredFields := ["id", "email"] })])] }

/-- A metadata stage that tags `processed_by` with `demo`. -/
def demoSetMeta : SetMetaStage := { Key := "processed_by", Value := "demo" }

/-! ## Reading a source the way the test does -/

/-- How a read of the message channel to its end comes out. -/
inductive ReadResult (π : Type) where
  /-- the channel was closed after `got` had been received -/
  | done (got : List Message) (producer : π)
  /-- nothing can be received, ever -/
  | blocked
  /-- the model was given too few iterations -/
  | outOfFuel
  deriving DecidableEq, Repr

/-- Go `for msg := range msgCh { got = append(got, msg) }` of
`TestSliceSourceEmitsAllMessages`, the context not cancelled: only the message channel is
received from. -/
def rangeMessages {π : Type} (src : Source π) : Nat → π → List Message → ReadResult π
  | 0, _, _ => ReadResult.outOfFuel
  | fuel + 1, g, got =>
    match (src.offers (src.advance g false false)).filter
        (fun c => c.1.listened true false) with
    | [] => ReadResult.blocked
    | (Event.msgValue msg, g1) :: _ => rangeMessages src fuel g1 (got ++ [msg])
    | (Event.msgClosed, g1) :: _ => ReadResult.done got g1
    | _ :: _ => ReadResult.blocked

/-- Go `_, ok := <-errCh` of the same test: what the receive delivers (`none`: it blocks). -/
def receiveErr {π : Type} (src : Source π) (g : π) : Option Event :=
  (((src.offers (src.advance g false false)).filter
    (fun c => c.1.listened false true)).head?).map (fun c => c.1)

/-! ## More vocabulary of the properties -/

/-- Whether a call is a call of the consumer. -/
def Call.isConsume : Call → Bool
  | .Consume _ => true
  | _ => false

/-- Whether a call is a call of a stage. -/
def Call.isProcess : Call → Bool
  | .Process _ _ => true
  | _ => false

/-- Whether an event is the receipt of a value from the error channel. -/
def Event.isErrValue : Event → Bool
  | .errValue _ => true
  | _ => false

/-- Whether an event is the receipt of a message. -/
def Event.isMsg : Event → Bool
  | .msgValue _ => true
  | _ => false

/-- The case the `select` of the loop takes in state `st`, with the state the producer is
in afterwards (`none`: no case is ready). -/
def Pipeline.takes {π σ : Type} (src : PipelineStart.Source π) (ctx : Context)
    (sched : Nat → Choice) (st : RunState π σ) : Option (Event × π) :=
  (Pipeline.ready src ctx (sched st.now).notices st)[(sched st.now).pick %
    (Pipeline.ready src ctx (sched st.now).notices st).length]?

/-- The events the `select`s of the loop take, in order: the iteration of `Pipeline.loop`,
keeping the case taken instead of the result. -/
def Pipeline.taken {π σ : Type} (src : PipelineStart.Source π) (stages : List Stage)
    (consume : σ → Option GoError → Message → σ × Option GoError) (ctx : Context)
    (sched : Nat → Choice) : Nat → RunState π σ → List Event
  | fuel, st =>
    if !(st.msgOpen || st.errOpen) then []
    else
      match fuel with
      | 0 => []
      | fuel + 1 =>
        let cases := Pipeline.ready src ctx (sched st.now).notices st
        match cases[(sched st.now).pick % cases.length]? with
        | none => []
        | some (ev, prod) =>
          match Pipeline.handle stages consume ctx
              { st with producer := prod, now := st.now + 1 } ev with
          | Step.done _ _ => [ev]
          | Step.next st1 => ev :: Pipeline.taken src stages consume ctx sched fuel st1

/-- The events the `select`s of a whole `Run` take: none when a precondition fails. -/
def Pipeline.events {π σ : Type} (p : Pipeline π σ) (ctx : Context) (sched : Nat → Choice)
    (fuel : Nat) : List Event :=
  match ctx.Err 0, p.Source, p.Sink with
  | none, some src, some sink =>
    Pipeline.taken src p.Stages sink.Consume ctx sched fuel
      { msgOpen := src.msgCh, errOpen := src.errCh, producer := src.Start,
        sink := sink.state, now := 1, calls := [Call.Start] }
  | _, _, _ => []

/-! ## Stand-ins for collaborators the program does not ship -/

/-- A source whose background work does a fixed list of channel operations, one after the
other, and never looks at the context. -/
def scriptSource (script : List Event) : Source (List Event) :=
  { Start := script
    advance := fun g _ _ => g
    offers := fun g =>
      match g with
      | [] => []
      | ev :: rest => [(ev, rest)] }

/-- A scripted source whose `Start` returns a nil error channel: only the message channel is
ever received from. -/
def scriptSourceNoErr (script : List Event) : Source (List Event) :=
  { scriptSource script with errCh := false }

/-- The map objects: a map is the entry at its address in the store of its kind. -/
structure Heap where
  payloads : List (List (String × GoAny))
  metas : List (List (String × String))
  deriving DecidableEq, Repr

/-- A `Message` as Go holds it: the two map fields are references to map objects (`none`:
nil), which the copies of the struct share. -/
structure MessageRef where
  Type_ : String
  Version : String
  Payload : Option Nat
  Meta : Option Nat
  deriving DecidableEq, Repr

/-- The content of a message: its maps read off the heap. -/
def Heap.load (h : Heap) (r : MessageRef) : Message :=
  { Type_ := r.Type_, Version := r.Version,
    Payload := r.Payload.bind (fun a => h.payloads[a]?),
    Meta := r.Meta.bind (fun a => h.metas[a]?) }

/-- Whether every map reference of `r` is an object of the heap. -/
def Heap.holds (h : Heap) (r : MessageRef) : Bool :=
  r.Payload.all (fun a => decide (a < h.payloads.length)) &&
    r.Meta.all (fun a => decide (a < h.metas.length))

/-- Whether two messages have a map object in common. -/
def MessageRef.sharesWith (a b : MessageRef) : Bool :=
  (a.Payload.isSome && a.Payload == b.Payload) || (a.Meta.isSome && a.Meta == b.Meta)

/-- No two messages of the list have a map object in common. -/
def unshared (ms : List MessageRef) : Prop :=
  ms.Pairwise (fun a b => a.sharesWith b = false)

instance unshared.decidable (ms : List MessageRef) : Decidable (unshared ms) := by
  unfold unshared; exact inferInstance

/-- What a call leaves of one map field, given the content `new` of that field in the
message it returns: the store and the reference the returned message holds.  A nil field
is nil; otherwise the map is the object handed in, written in place, unless there was none
or the stage hands back maps of its own (`copies`), and then it is a new object. -/
def writeBack {V : Type} (store : List (List (String × V))) (ref : Option Nat)
    (new : GoMap V) (copies : Bool) : List (List (String × V)) × Option Nat :=
  match new with
  | none => (store, none)
  | some t =>
    match ref, copies with
    | some a, false => (store.set a t, some a)
    | _, _ => (store ++ [t], some store.length)

/-- A stage over map objects: what it makes of the content of the message it is given (the
`Stage` of the value model), and whether the maps of the message it returns are the
objects it was handed, written in place, or objects of its own. -/
structure RefStage where
  stage : Stage
  copies : Bool

/-- The call `stage.Process(ctx, msg)` over map objects. -/
def RefStage.Process (s : RefStage) (ctx : Option GoError) (h : Heap) (r : MessageRef) :
    Heap × MessageRef × Option GoError :=
  let out := s.stage.Process ctx (h.load r)
  let p := writeBack h.payloads r.Payload out.1.Payload s.copies
  let m := writeBack h.metas r.Meta out.1.Meta s.copies
  ({ payloads := p.1, metas := m.1 },
    { Type_ := out.1.Type_, Version := out.1.Version, Payload := p.2, Meta := m.2 }, out.2)

/-- What one `select` of `Run` can take from a slice source, messages holding references. -/
inductive RefEvent where
  | ctxDone
  | errValue (err : Option GoError)
  | errClosed
  | msgValue (msg : MessageRef)
  | msgClosed
  deriving DecidableEq, Repr

/-- The channel variable an event is received from is still non-nil, as `Event.listened`. -/
def RefEvent.listened (msgOpen errOpen : Bool) : RefEvent → Bool
  | .ctxDone => false
  | .errValue _ => errOpen
  | .errClosed => errOpen
  | .msgValue _ => msgOpen
  | .msgClosed => msgOpen

/-- The goroutine of `SliceSource.Start` over messages holding references. -/
structure RefProducer where
  pending : List MessageRef
  exited : Bool
  deriving DecidableEq, Repr

/-- The goroutine up to its next send, as `SliceProducer.advance`. -/
def RefProducer.advance (g : RefProducer) (cancelled notices : Bool) : RefProducer :=
  if g.exited then g
  else
    match g.pending with
    | [] => { g with exited := true }
    | _ :: _ => if cancelled && notices then { g with exited := true } else g

/-- What the receiver can get, as `SliceProducer.offers`. -/
def RefProducer.offers (g : RefProducer) : List (RefEvent × RefProducer) :=
  if g.exited then [(RefEvent.errClosed, g), (RefEvent.msgClosed, g)]
  else
    match g.pending with
    | [] => []
    | msg :: rest => [(RefEvent.msgValue msg, { g with pending := rest })]

/-- The local state of `Run` inside its `for` loop, with the heap and with the
`d.Messages` of the memory destination. -/
structure RefRunState where
  msgOpen : Bool
  errOpen : Bool
  producer : RefProducer
  heap : Heap
  sink : List MessageRef
  now : Nat
  calls : List Call
  deriving DecidableEq, Repr

/-- What there is to see of a run over map objects when it ends.  The call record holds
the content each message had at the time of the call. -/
structure RefRunResult where
  ret : Ret
  heap : Heap
  sink : List MessageRef
  producer : Option RefProducer
  calls : List Call
  deriving DecidableEq, Repr

/-- The result of a run over map objects that ends in state `st`. -/
def RefRunState.result (st : RefRunState) (ret : Ret) : RefRunResult :=
  { ret := ret, heap := st.heap, sink := st.sink, producer := some st.producer,
    calls := st.calls }

/-- The stored messages and the messages to come are objects of the heap, no message to
come shares a map with a stored one, and no two messages to come share a map. -/
def Heap.apart (h : Heap) (stored coming : List MessageRef) : Prop :=
  (∀ o ∈ stored, h.holds o = true ∧ ∀ p ∈ coming, o.sharesWith p = false) ∧
    (∀ p ∈ coming, h.holds p = true) ∧ unshared coming

instance Heap.apart.decidable (h : Heap) (stored coming : List MessageRef) :
    Decidable (h.apart stored coming) := by
  unfold Heap.apart; exact inferInstance

theorem is_wrapped_schema_not_found (args : List String) :
    (GoError.Errorf "%w: type=%q version=%q" ErrSchemaNotFound args).Is ErrSchemaNotFound
      = true := by
  simp [GoError.Is, ErrSchemaNotFound]

theorem not_is_missing_of_schema_not_found (args : List String) :
    (GoError.Errorf "%w: type=%q version=%q" ErrSchemaNotFound args).Is ErrMissingField
      = false := by
  simp [GoError.Is, ErrSchemaNotFound, ErrMissingField]

theorem is_wrapped_missing_field (args : List String) :
    (GoError.Errorf "%w: %s" ErrMissingField args).Is ErrMissingField = true := by
  simp [GoError.Is, ErrMissingField]

theorem not_is_schema_not_found_of_missing (args : List String) :
    (GoError.Errorf "%w: %s" ErrMissingField args).Is ErrSchemaNotFound = false := by
  simp [GoError.Is, ErrSchemaNotFound, ErrMissingField]

theorem getq_none {V : Type} (k : String) : GoMap.get? (none : GoMap V) k = none := rfl

theorem lookup_tableSet_self {V : Type} (k : String) (v : V) (t : List (String × V)) :
    (tableSet k v t).lookup k = some v := by
  induction t with
  | nil => simp [tableSet, List.lookup]
  | cons p rest ih =>
    obtain ⟨k', v'⟩ := p
    by_cases h : k' = k
    · simp [tableSet, h, List.lookup]
    · have hne : (k == k') = false := by
        simpa using fun h' : k = k' => h h'.symm
      simp [tableSet, h, List.lookup, hne, ih]

theorem tableSet_idem {V : Type} (k : String) (v : V) (t : List (String × V)) :
    tableSet k v (tableSet k v t) = tableSet k v t := by
  induction t with
  | nil => simp [tableSet]
  | cons p rest ih =>
    obtain ⟨k', v'⟩ := p
    by_cases h : k' = k
    · simp [tableSet, h]
    · simp [tableSet, h, ih]

/-! ## Lemmas on the validation stage -/

theorem checkFields_error (msg : Message) (fields : List String) (e : GoError)
    (h : ValidationStage.checkFields msg fields = some e) :
    ∃ field, field ∈ fields ∧ msg.Payload.get? field = none ∧
      e = GoError.Errorf "%w: %s" ErrMissingField [field] := by
  induction fields with
  | nil => simp [ValidationStage.checkFields] at h
  | cons field rest ih =>
    unfold ValidationStage.checkFields at h
    by_cases hp : msg.Payload.isNone = true
    · rw [if_pos hp] at h
      refine ⟨field, by simp, ?_, by simpa using h.symm⟩
      have : msg.Payload = none := by simpa using hp
      rw [this]; rfl
    · rw [if_neg hp] at h
      by_cases hf : (msg.Payload.get? field).isNone = true
      · rw [if_pos hf] at h
        exact ⟨field, by simp, by simpa using hf, by simpa using h.symm⟩
      · rw [if_neg hf] at h
        obtain ⟨f, hmem, hnone, he⟩ := ih h
        exact ⟨f, by simp [hmem], hnone, he⟩

theorem checkFields_none_iff (msg : Message) (fields : List String) :
    ValidationStage.checkFields msg fields = none ↔
      ∀ field ∈ fields, (msg.Payload.get? field).isSome = true := by
  induction fields with
  | nil => simp [ValidationStage.checkFields]
  | cons field rest ih =>
    unfold ValidationStage.checkFields
    by_cases hp : msg.Payload.isNone = true
    · have hnil : msg.Payload = none := by simpa using hp
      rw [if_pos hp]
      constructor
      · intro h; simp at h
      · intro h
        have h0 := h field (by simp)
        rw [hnil] at h0
        simp [getq_none] at h0
    · by_cases hf : (msg.Payload.get? field).isNone = true
      · rw [if_neg hp, if_pos hf]
        constructor
        · intro h; simp at h
        · intro h
          have h0 := h field (by simp)
          have hn : msg.Payload.get? field = none := by simpa using hf
          rw [hn] at h0
          simp at h0
      · have hsome : (msg.Payload.get? field).isSome = true := by
          cases hg : msg.Payload.get? field with
          | none => simp [hg] at hf
          | some _ => rfl
        simp [hp, hf, ih, hsome]

/-! ## The validation stage -/

/-- C6: `ValidationStage.Process` fails with an error matching `ErrSchemaNotFound` exactly
when the table has no entry for the message's type, or that entry has none for its version;
the payload plays no part in it (the statement holds with any payload put in its place). -/
theorem validation_schema_not_found_iff (s : ValidationStage) (ctx : Option GoError)
    (msg : Message) (payload : GoMap GoAny) :
    (∃ e, (s.Process ctx { msg with Payload := payload }).2 = some e ∧
        e.Is ErrSchemaNotFound = true) ↔
      (s.Schemas.get? msg.Type_ = none ∨
        ∃ versions, s.Schemas.get? msg.Type_ = some versions ∧
          versions.get? msg.Version = none) := by
  unfold ValidationStage.Process
  cases hv : s.Schemas.get? msg.Type_ with
  | none =>
    simp only [hv]
    constructor
    · intro _; exact Or.inl trivial
    · intro _; exact ⟨_, rfl, is_wrapped_schema_not_found _⟩
  | some versions =>
    simp only [hv]
    cases hs : versions.get? msg.Version with
    | none =>
      simp only [hs]
      constructor
      · intro _; exact Or.inr ⟨versions, rfl, hs⟩
      · intro _; exact ⟨_, rfl, is_wrapped_schema_not_found _⟩
    | some schema =>
      simp only [hs]
      constructor
      · rintro ⟨e, he, his⟩
        cases hc : ValidationStage.checkFields { msg with Payload := payload }
            schema.RequiredFields with
        | none => simp [hc] at he
        | some e' =>
          obtain ⟨f, _, _, hf⟩ := checkFields_error _ _ _ hc
          simp only [hc, Option.some.injEq] at he
          subst he
          rw [hf, not_is_schema_not_found_of_missing] at his
          exact absurd his (by simp)
      · rintro (h | ⟨vs, hvs, hn⟩)
        · exact absurd h (by simp)
        · simp only [Option.some.injEq] at hvs
          subst hvs
          rw [hs] at hn
          exact absurd hn (by simp)

/-- C7, as stated, fails: with a schema that requires no field, a message whose payload is
nil passes validation, although its payload is absent. -/
theorem validation_nil_payload_passes :
    ¬ ((∃ e, ((ValidationStage.mk (some [("x", some [("v1", Schema.mk [])])])).Process none
            (Message.mk "x" "v1" none none)).2 = some e ∧ e.Is ErrMissingField = true) ↔
        ((Message.mk "x" "v1" none none).Payload = none ∨
          ∃ f ∈ (Schema.mk []).RequiredFields,
            (Message.mk "x" "v1" none none).Payload.get? f = none)) := by
  intro h
  obtain ⟨e, he, _⟩ := h.mpr (Or.inl rfl)
  have hrun : ((ValidationStage.mk (some [("x", some [("v1", Schema.mk [])])])).Process none
      (Message.mk "x" "v1" none none)).2 = none := by decide
  rw [hrun] at he
  exact absurd he (by simp)

/-- C7, amended: for a message whose (type, version) pair has a schema, `Process` fails with
an error matching `ErrMissingField` exactly when the payload is nil and the schema requires
at least one field, or some required name is not a key of the payload. -/
theorem validation_missing_field_iff (s : ValidationStage) (ctx : Option GoError)
    (msg : Message) (versions : GoMap Schema) (schema : Schema)
    (hv : s.Schemas.get? msg.Type_ = some versions)
    (hs : versions.get? msg.Version = some schema) :
    (∃ e, (s.Process ctx msg).2 = some e ∧ e.Is ErrMissingField = true) ↔
      ((msg.Payload = none ∧ schema.RequiredFields ≠ []) ∨
        ∃ f ∈ schema.RequiredFields, msg.Payload.get? f = none) := by
  unfold ValidationStage.Process
  simp only [hv, hs]
  cases hc : ValidationStage.checkFields msg schema.RequiredFields with
  | some e' =>
    obtain ⟨f, hmem, hnone, hf⟩ := checkFields_error _ _ _ hc
    constructor
    · intro _; exact Or.inr ⟨f, hmem, hnone⟩
    · intro _; exact ⟨e', rfl, by rw [hf]; exact is_wrapped_missing_field _⟩
  | none =>
    have hall := (checkFields_none_iff msg schema.RequiredFields).mp hc
    constructor
    · rintro ⟨e, he, _⟩
      exact absurd he (by simp)
    · rintro (⟨hnil, hne⟩ | ⟨f, hmem, hnone⟩)
      · exfalso
        cases hfs : schema.RequiredFields with
        | nil => exact hne hfs
        | cons f rest =>
          have h0 := hall f (by simp [hfs])
          rw [hnil] at h0
          simp [getq_none] at h0
      · have h0 := hall f hmem
        rw [hnone] at h0
        simp at h0

/-- The amended C7 at the test's table, on a message that lacks `email`. -/
theorem validation_missing_field_iff_witness :
    (ValidationStage.mk (some [("user.created", some [("v1", Schema.mk ["id", "email"])])])
        ).Schemas.get? (Message.mk "user.created" "v1" (some [("id", GoAny.str "u_1")]) none).Type_
        = some (some [("v1", Schema.mk ["id", "email"])]) ∧
      ((∃ e, ((ValidationStage.mk
            (some [("user.created", some [("v1", Schema.mk ["id", "email"])])])).Process none
            (Message.mk "user.created" "v1" (some [("id", GoAny.str "u_1")]) none)).2 = some e ∧
          e.Is ErrMissingField = true) ↔
        (((Message.mk "user.created" "v1" (some [("id", GoAny.str "u_1")]) none).Payload = none ∧
            (Schema.mk ["id", "email"]).RequiredFields ≠ []) ∨
          ∃ f ∈ (Schema.mk ["id", "email"]).RequiredFields,
            (Message.mk "user.created" "v1" (some [("id", GoAny.str "u_1")]) none).Payload.get? f
              = none)) :=
  ⟨by decide,
    validation_missing_field_iff _ none _ (some [("v1", Schema.mk ["id", "email"])])
      (Schema.mk ["id", "email"]) (by decide) (by decide)⟩

/-- C8: a message whose (type, version) pair has a schema and whose payload has every
required name as a key passes `ValidationStage.Process` with no error and comes back
unchanged. -/
theorem validation_passes_unchanged (s : ValidationStage) (ctx : Option GoError)
    (msg : Message) (versions : GoMap Schema) (schema : Schema)
    (hv : s.Schemas.get? msg.Type_ = some versions)
    (hs : versions.get? msg.Version = some schema)
    (hall : ∀ f ∈ schema.RequiredFields, (msg.Payload.get? f).isSome = true) :
    s.Process ctx msg = (msg, none) := by
  unfold ValidationStage.Process
  simp only [hv, hs]
  rw [(checkFields_none_iff msg schema.RequiredFields).mpr hall]

/-- C8 at the test's table and valid message (with one extra payload field). -/
theorem validation_passes_unchanged_witness :
    (∀ f ∈ (Schema.mk ["id", "email"]).RequiredFields,
        ((Message.mk "user.created" "v1"
          (some [("id", GoAny.str "u_1"), ("extra", GoAny.null), ("email", GoAny.num 3)])
          (some [("source", "demo")])).Payload.get? f).isSome = true) ∧
      (ValidationStage.mk
          (some [("user.created", some [("v1", Schema.mk ["id", "email"])])])).Process none
          (Message.mk "user.created" "v1"
            (some [("id", GoAny.str "u_1"), ("extra", GoAny.null), ("email", GoAny.num 3)])
            (some [("source", "demo")]))
        = (Message.mk "user.created" "v1"
            (some [("id", GoAny.str "u_1"), ("extra", GoAny.null), ("email", GoAny.num 3)])
            (some [("source", "demo")]), none) :=
  ⟨by decide,
    validation_passes_unchanged _ none _ (some [("v1", Schema.mk ["id", "email"])])
      (Schema.mk ["id", "email"]) (by decide) (by decide) (by decide)⟩

/-! ## The metadata stage -/

/-- C9: `SetMetaStage.Process` is idempotent: processing the message it returned gives that
message again, with no error, and so the same value under `Key`; a nil `Meta` included. -/
theorem setMeta_idempotent (s : SetMetaStage) (ctx1 ctx2 : Option GoError) (m : Message) :
    s.Process ctx2 (s.Process ctx1 m).1 = s.Process ctx1 m ∧
      (s.Process ctx2 (s.Process ctx1 m).1).1.Meta.get? s.Key
        = (s.Process ctx1 m).1.Meta.get? s.Key := by
  have h : s.Process ctx2 (s.Process ctx1 m).1 = s.Process ctx1 m := by
    obtain ⟨ty, ver, payload, meta⟩ := m
    cases meta with
    | none => simp [SetMetaStage.Process, tableSet]
    | some t => simp [SetMetaStage.Process, tableSet_idem]
  exact ⟨h, by rw [h]⟩

/-- C10: `SetMetaStage.Process` never fails, and the message it returns maps `Key` to
`Value` in its `Meta`, whatever `Meta` was (nil, empty, or holding `Key` already). -/
theorem setMeta_sets_key (s : SetMetaStage) (ctx : Option GoError) (m : Message) :
    (s.Process ctx m).2 = none ∧ (s.Process ctx m).1.Meta.get? s.Key = some s.Value := by
  obtain ⟨ty, ver, payload, meta⟩ := m
  cases meta with
  | none => simp [SetMetaStage.Process, GoMap.get?, lookup_tableSet_self]
  | some t => simp [SetMetaStage.Process, GoMap.get?, lookup_tableSet_self]

/-! ## Preconditions of `Run` -/

/-- C3: run with a context that is already cancelled, a pipeline with a source and a sink
returns `context.Canceled`; `Start` is not called, no stage and no consumer call is made,
and the sink is left as it was. -/
theorem run_already_cancelled {π σ : Type} (src : Source π) (stages : List Stage)
    (sink : Destination σ) (sched : Nat → Choice) (fuel : Nat) :
    Pipeline.Run { Source := some src, Stages := stages, Sink := some sink }
        { cancelAt := some 0 } sched fuel
      = { ret := Ret.returned (some GoError.Canceled), sink := some sink.state,
          producer := none, calls := [] } := by
  simp [Pipeline.Run, Context.Err]

/-- C4: run with a context that is not cancelled, a pipeline whose source is nil returns the
error `pipeline source is required`; no call is made and the sink is left as it was. -/
theorem run_source_missing {π σ : Type} (stages : List Stage) (sink : Option (Destination σ))
    (ctx : Context) (sched : Nat → Choice) (fuel : Nat) (hctx : ctx.Err 0 = none) :
    Pipeline.Run ({ Source := none, Stages := stages, Sink := sink } : Pipeline π σ)
        ctx sched fuel
      = { ret := Ret.returned (some (GoError.New "pipeline source is required")),
          sink := sink.map (fun d => d.state), producer := none, calls := [] } := by
  simp [Pipeline.Run, hctx]

/-- C4 at the test's pipeline: a memory sink, no source, the background context. -/
theorem run_source_missing_witness :
    Context.Background.Err 0 = none ∧
      Pipeline.Run
        ({ Source := none
           Stages := [failingStage]
           Sink := some (MemoryDestination.toDestination { Messages := [] }) } :
          Pipeline SliceProducer MemoryDestination)
        Context.Background (fun _ => { notices := false, pick := 0 }) 5
      = { ret := Ret.returned (some (GoError.New "pipeline source is required")),
          sink := (some (MemoryDestination.toDestination { Messages := [] })).map
            (fun d => d.state),
          producer := none, calls := [] } :=
  ⟨rfl, run_source_missing _ _ _ _ _ rfl⟩

/-- C5: run with a context that is not cancelled, a pipeline with a source and a nil sink
returns the error `pipeline sink is required` before the producer is started: `Start` is not
called, no message is received and no stage is invoked. -/
theorem run_sink_missing {π σ : Type} (src : Source π) (stages : List Stage)
    (ctx : Context) (sched : Nat → Choice) (fuel : Nat) (hctx : ctx.Err 0 = none) :
    Pipeline.Run ({ Source := some src, Stages := stages, Sink := none } : Pipeline π σ)
        ctx sched fuel
      = { ret := Ret.returned (some (GoError.New "pipeline sink is required")),
          sink := none, producer := none, calls := [] } := by
  simp [Pipeline.Run, hctx]

/-- C5 at the test's pipeline: a slice source, no sink, the background context. -/
theorem run_sink_missing_witness :
    Context.Background.Err 0 = none ∧
      Pipeline.Run
        ({ Source := some (SliceSource.toSource { Messages := [Message.zero] })
           Stages := [failingStage]
           Sink := none } :
          Pipeline SliceProducer MemoryDestination)
        Context.Background (fun _ => { notices := false, pick := 0 }) 5
      = { ret := Ret.returned (some (GoError.New "pipeline sink is required")),
          sink := none, producer := none, calls := [] } :=
  ⟨rfl, run_sink_missing _ _ _ _ _ rfl⟩

/-! ## Lemmas on the stage chain -/

theorem background_err (now : Nat) : Context.Background.Err now = none := rfl

theorem slice_msgCh (s : SliceSource) : (SliceSource.toSource s).msgCh = true := rfl

theorem slice_errCh (s : SliceSource) : (SliceSource.toSource s).errCh = true := rfl

theorem inputOf_zero (stages : List Stage) (m : Message) : inputOf stages 0 m = m := by
  simp [inputOf, thread]

theorem inputOf_cons_succ (stage : Stage) (rest : List Stage) (j : Nat) (m : Message) :
    inputOf (stage :: rest) (j + 1) m = inputOf rest j (stage.Process none m).1 := by
  simp [inputOf, thread]

theorem thread_cons (stage : Stage) (rest : List Stage) (m : Message) :
    thread (stage :: rest) m = thread rest (stage.Process none m).1 := by
  simp [thread]

theorem passesAll_head (stage : Stage) (rest : List Stage) (m : Message)
    (h : passesAll (stage :: rest) m) : (stage.Process none m).2 = none := by
  have h0 := h 0 (by simp)
  simpa [inputOf_zero] using h0

theorem passesAll_tail (stage : Stage) (rest : List Stage) (m : Message)
    (h : passesAll (stage :: rest) m) : passesAll rest (stage.Process none m).1 := by
  intro j hj
  have h1 := h (j + 1) (by simpa using hj)
  simpa [inputOf_cons_succ] using h1

theorem range_succ_map_cons {α : Type} (n : Nat) (f : Nat → α) :
    (List.range (n + 1)).map f = f 0 :: (List.range n).map (fun j => f (j + 1)) := by
  rw [List.range_succ_eq_map]
  simp [List.map_map, Function.comp_def]

theorem runStages_pass (stages : List Stage) :
    ∀ (i : Nat) (cur : Message) (now : Nat) (calls : List Call), passesAll stages cur →
      Pipeline.runStages Context.Background stages i cur now calls
        = { current := thread stages cur, err := none, now := now + 2 * stages.length,
            calls := calls ++
              (List.range stages.length).map
                (fun j => Call.Process (i + j) (inputOf stages j cur)) } := by
  induction stages with
  | nil => intro i cur now calls _; simp [Pipeline.runStages, thread]
  | cons stage rest ih =>
    intro i cur now calls h
    have hhead := passesAll_head stage rest cur h
    have htail := passesAll_tail stage rest cur h
    have hp : stage.Process none cur = ((stage.Process none cur).1, none) :=
      Prod.ext rfl hhead
    unfold Pipeline.runStages
    simp only [background_err]
    rw [hp]
    simp only []
    rw [ih (i + 1) _ (now + 2) _ htail]
    simp only [List.length_cons, range_succ_map_cons, thread_cons, inputOf_zero,
      inputOf_cons_succ, Nat.add_zero, List.append_assoc, List.singleton_append]
    have e1 : now + 2 + 2 * rest.length = now + 2 * (rest.length + 1) := by omega
    have e2 : ∀ j, i + 1 + j = i + (j + 1) := by intro j; omega
    simp only [e1, e2]

theorem firstFailure_zero (stage : Stage) (rest : List Stage) (m : Message) (e : GoError)
    (h : firstFailure (stage :: rest) m 0 e) : (stage.Process none m).2 = some e := by
  obtain ⟨_, _, h0⟩ := h
  simpa [inputOf_zero] using h0

theorem firstFailure_succ_head (stage : Stage) (rest : List Stage) (m : Message) (k : Nat)
    (e : GoError) (h : firstFailure (stage :: rest) m (k + 1) e) :
    (stage.Process none m).2 = none := by
  have h0 := h.1 0 (by simp) (by omega)
  simpa [inputOf_zero] using h0

theorem firstFailure_succ_tail (stage : Stage) (rest : List Stage) (m : Message) (k : Nat)
    (e : GoError) (h : firstFailure (stage :: rest) m (k + 1) e) :
    firstFailure rest (stage.Process none m).1 k e := by
  obtain ⟨hbefore, hk, hfail⟩ := h
  refine ⟨?_, ?_, ?_⟩
  · intro j hj hjk
    have h1 := hbefore (j + 1) (by simpa using hj) (by omega)
    simpa [inputOf_cons_succ] using h1
  · simpa using hk
  · simpa [inputOf_cons_succ] using hfail

theorem runStages_fail (stages : List Stage) :
    ∀ (k i : Nat) (cur : Message) (now : Nat) (calls : List Call) (e : GoError),
      firstFailure stages cur k e →
      Pipeline.runStages Context.Background stages i cur now calls
        = { current := inputOf stages k cur, err := some e, now := now + 2 * (k + 1),
            calls := calls ++
              (List.range (k + 1)).map
                (fun j => Call.Process (i + j) (inputOf stages j cur)) } := by
  induction stages with
  | nil =>
    intro k i cur now calls e h
    obtain ⟨_, hk, _⟩ := h
    simp at hk
  | cons stage rest ih =>
    intro k i cur now calls e h
    cases k with
    | zero =>
      have hfail := firstFailure_zero stage rest cur e h
      have hp : stage.Process none cur = ((stage.Process none cur).1, some e) :=
        Prod.ext rfl hfail
      unfold Pipeline.runStages
      simp only [background_err]
      rw [hp]
      simp [inputOf_zero, List.range_succ]
    | succ k =>
      have hhead := firstFailure_succ_head stage rest cur k e h
      have htail := firstFailure_succ_tail stage rest cur k e h
      have hp : stage.Process none cur = ((stage.Process none cur).1, none) :=
        Prod.ext rfl hhead
      unfold Pipeline.runStages
      simp only [background_err]
      rw [hp]
      simp only []
      rw [ih k (i + 1) _ (now + 2) _ e htail]
      simp only [range_succ_map_cons (k + 1), inputOf_zero, inputOf_cons_succ, Nat.add_zero,
        List.append_assoc, List.singleton_append]
      have e1 : now + 2 + 2 * (k + 1) = now + 2 * (k + 1 + 1) := by omega
      have e2 : ∀ j, i + 1 + j = i + (j + 1) := by intro j; omega
      simp only [e1, e2]

/-! ## Lemmas on one iteration of the loop -/

theorem handle_msg_pass {π : Type} (stages : List Stage) (st : RunState π MemoryDestination)
    (m : Message) (h : passesAll stages m) :
    Pipeline.handle stages MemoryDestination.Consume Context.Background st (Event.msgValue m)
      = Step.next { st with
          sink := { Messages := st.sink.Messages ++ [thread stages m] }
          now := st.now + 2 * stages.length + 2
          calls := st.calls ++ callsOf stages m } := by
  simp [Pipeline.handle, runStages_pass stages 0 m st.now st.calls h,
    MemoryDestination.Consume, callsOf, background_err]

theorem handle_msg_fail {π σ : Type} (stages : List Stage)
    (consume : σ → Option GoError → Message → σ × Option GoError) (st : RunState π σ)
    (m : Message) (k : Nat) (e : GoError) (h : firstFailure stages m k e) :
    Pipeline.handle stages consume Context.Background st (Event.msgValue m)
      = Step.done (some e) { st with
          now := st.now + 2 * (k + 1)
          calls := st.calls ++ callsUpTo stages m k } := by
  simp [Pipeline.handle, runStages_fail stages k 0 m st.now st.calls e h, callsUpTo]

theorem ready_pending (s : SliceSource) (notices eo : Bool) (m : Message)
    (rest : List Message) (d : MemoryDestination) (n : Nat) (cs : List Call) :
    Pipeline.ready (SliceSource.toSource s) Context.Background notices
        { msgOpen := true, errOpen := eo, producer := { pending := m :: rest, exited := false },
          sink := d, now := n, calls := cs }
      = [(Event.msgValue m, { pending := rest, exited := false })] := by
  simp [Pipeline.ready, SliceSource.toSource, SliceProducer.advance, SliceProducer.offers,
    Event.listened, background_err]

theorem loop_msg_pass (s : SliceSource) (stages : List Stage) (sched : Nat → Choice)
    (fuel : Nat) (eo : Bool) (m : Message) (rest : List Message) (d : MemoryDestination)
    (n : Nat) (cs : List Call) (h : passesAll stages m) :
    Pipeline.loop (SliceSource.toSource s) stages MemoryDestination.Consume
        Context.Background sched (fuel + 1)
        { msgOpen := true, errOpen := eo, producer := { pending := m :: rest, exited := false },
          sink := d, now := n, calls := cs }
      = Pipeline.loop (SliceSource.toSource s) stages MemoryDestination.Consume
        Context.Background sched fuel
        { msgOpen := true, errOpen := eo, producer := { pending := rest, exited := false },
          sink := { Messages := d.Messages ++ [thread stages m] },
          now := n + 1 + 2 * stages.length + 2, calls := cs ++ callsOf stages m } := by
  rw [Pipeline.loop]
  simp only [ready_pending, Bool.true_or, Bool.not_true, Bool.false_eq_true, if_false,
    List.length_singleton, Nat.mod_one, List.getElem?_cons_zero, handle_msg_pass _ _ _ h]

theorem loop_msg_fail (s : SliceSource) (stages : List Stage) (sched : Nat → Choice)
    (fuel : Nat) (eo : Bool) (m : Message) (rest : List Message) (d : MemoryDestination)
    (n : Nat) (cs : List Call) (k : Nat) (e : GoError) (h : firstFailure stages m k e) :
    Pipeline.loop (SliceSource.toSource s) stages MemoryDestination.Consume
        Context.Background sched (fuel + 1)
        { msgOpen := true, errOpen := eo, producer := { pending := m :: rest, exited := false },
          sink := d, now := n, calls := cs }
      = { ret := Ret.returned (some e), sink := some d,
          producer := some { pending := rest, exited := false },
          calls := cs ++ callsUpTo stages m k } := by
  rw [Pipeline.loop]
  simp only [ready_pending, Bool.true_or, Bool.not_true, Bool.false_eq_true, if_false,
    List.length_singleton, Nat.mod_one, List.getElem?_cons_zero, handle_msg_fail _ _ _ _ _ _ h,
    RunState.result]

theorem loop_pending (s : SliceSource) (stages : List Stage) (sched : Nat → Choice)
    (fuel : Nat) (eo : Bool) (rest : List Message) (pre : List Message) :
    ∀ (d : MemoryDestination) (n : Nat) (cs : List Call),
      (∀ x ∈ pre, passesAll stages x) →
      Pipeline.loop (SliceSource.toSource s) stages MemoryDestination.Consume
          Context.Background sched (pre.length + fuel)
          { msgOpen := true, errOpen := eo,
            producer := { pending := pre ++ rest, exited := false },
            sink := d, now := n, calls := cs }
        = Pipeline.loop (SliceSource.toSource s) stages MemoryDestination.Consume
          Context.Background sched fuel
          { msgOpen := true, errOpen := eo, producer := { pending := rest, exited := false },
            sink := { Messages := d.Messages ++ pre.map (thread stages) },
            now := n + pre.length * (2 * stages.length + 3),
            calls := cs ++ pre.flatMap (callsOf stages) } := by
  induction pre with
  | nil => intro d n cs _; simp
  | cons m pre ih =>
    intro d n cs h
    have e1 : (m :: pre).length + fuel = (pre.length + fuel) + 1 := by
      simp only [List.length_cons]; omega
    rw [e1, List.cons_append, loop_msg_pass _ _ _ _ _ _ _ _ _ _ (h m (by simp)),
      ih _ _ _ (fun x hx => h x (by simp [hx]))]
    have e2 : n + 1 + 2 * stages.length + 2 + pre.length * (2 * stages.length + 3)
        = n + (m :: pre).length * (2 * stages.length + 3) := by
      simp only [List.length_cons]; ring
    simp only [e2, List.map_cons, List.flatMap_cons, List.append_assoc, List.singleton_append]

theorem loop_finished {π σ : Type} (src : Source π) (stages : List Stage)
    (consume : σ → Option GoError → Message → σ × Option GoError) (ctx : Context)
    (sched : Nat → Choice) (fuel : Nat) (g : π) (d : σ) (n : Nat) (cs : List Call) :
    Pipeline.loop src stages consume ctx sched fuel
        { msgOpen := false, errOpen := false, producer := g, sink := d, now := n, calls := cs }
      = { ret := Ret.returned none, sink := some d, producer := some g, calls := cs } := by
  rw [Pipeline.loop.eq_def]
  simp [RunState.result]

theorem ready_exhausted (s : SliceSource) (notices : Bool) (d : MemoryDestination) (n : Nat)
    (cs : List Call) :
    Pipeline.ready (SliceSource.toSource s) Context.Background notices
        { msgOpen := true, errOpen := true, producer := { pending := [], exited := false },
          sink := d, now := n, calls := cs }
      = [(Event.errClosed, { pending := [], exited := true }),
          (Event.msgClosed, { pending := [], exited := true })] := by
  simp [Pipeline.ready, SliceSource.toSource, SliceProducer.advance, SliceProducer.offers,
    Event.listened, background_err]

theorem ready_exited_msg (s : SliceSource) (notices : Bool) (d : MemoryDestination) (n : Nat)
    (cs : List Call) :
    Pipeline.ready (SliceSource.toSource s) Context.Background notices
        { msgOpen := true, errOpen := false, producer := { pending := [], exited := true },
          sink := d, now := n, calls := cs }
      = [(Event.msgClosed, { pending := [], exited := true })] := by
  simp [Pipeline.ready, SliceSource.toSource, SliceProducer.advance, SliceProducer.offers,
    Event.listened, background_err]

theorem ready_exited_err (s : SliceSource) (notices : Bool) (d : MemoryDestination) (n : Nat)
    (cs : List Call) :
    Pipeline.ready (SliceSource.toSource s) Context.Background notices
        { msgOpen := false, errOpen := true, producer := { pending := [], exited := true },
          sink := d, now := n, calls := cs }
      = [(Event.errClosed, { pending := [], exited := true })] := by
  simp [Pipeline.ready, SliceSource.toSource, SliceProducer.advance, SliceProducer.offers,
    Event.listened, background_err]

theorem loop_exited_msg (s : SliceSource) (stages : List Stage) (sched : Nat → Choice)
    (fuel : Nat) (d : MemoryDestination) (n : Nat) (cs : List Call) :
    Pipeline.loop (SliceSource.toSource s) stages MemoryDestination.Consume
        Context.Background sched (fuel + 1)
        { msgOpen := true, errOpen := false, producer := { pending := [], exited := true },
          sink := d, now := n, calls := cs }
      = { ret := Ret.returned none, sink := some d,
          producer := some { pending := [], exited := true }, calls := cs } := by
  rw [Pipeline.loop]
  simp only [ready_exited_msg, Bool.or_false, Bool.not_true, Bool.false_eq_true, if_false,
    List.length_singleton, Nat.mod_one, List.getElem?_cons_zero, Pipeline.handle,
    loop_finished]

theorem loop_exited_err (s : SliceSource) (stages : List Stage) (sched : Nat → Choice)
    (fuel : Nat) (d : MemoryDestination) (n : Nat) (cs : List Call) :
    Pipeline.loop (SliceSource.toSource s) stages MemoryDestination.Consume
        Context.Background sched (fuel + 1)
        { msgOpen := false, errOpen := true, producer := { pending := [], exited := true },
          sink := d, now := n, calls := cs }
      = { ret := Ret.returned none, sink := some d,
          producer := some { pending := [], exited := true }, calls := cs } := by
  rw [Pipeline.loop]
  simp only [ready_exited_err, Bool.false_or, Bool.not_true, Bool.false_eq_true, if_false,
    List.length_singleton, Nat.mod_one, List.getElem?_cons_zero, Pipeline.handle,
    loop_finished]

theorem loop_drain (s : SliceSource) (stages : List Stage) (sched : Nat → Choice)
    (fuel : Nat) (d : MemoryDestination) (n : Nat) (cs : List Call) :
    Pipeline.loop (SliceSource.toSource s) stages MemoryDestination.Consume
        Context.Background sched (fuel + 2)
        { msgOpen := true, errOpen := true, producer := { pending := [], exited := false },
          sink := d, now := n, calls := cs }
      = { ret := Ret.returned none, sink := some d,
          producer := some { pending := [], exited := true }, calls := cs } := by
  rw [Pipeline.loop]
  simp only [ready_exhausted, Bool.or_true, Bool.not_true, Bool.false_eq_true, if_false,
    List.length_cons, List.length_nil, Nat.zero_add, Nat.reduceAdd]
  rcases Nat.mod_two_eq_zero_or_one (sched n).pick with h | h
  · simp only [h, List.getElem?_cons_zero, Pipeline.handle, loop_exited_msg]
  · simp only [h, List.getElem?_cons_succ, List.getElem?_cons_zero, Pipeline.handle,
      loop_exited_err]

/-! ## The metadata stage changes one entry only -/

theorem lookup_tableSet_other {V : Type} (k k' : String) (v : V) (t : List (String × V))
    (h : k' ≠ k) : (tableSet k v t).lookup k' = t.lookup k' := by
  induction t with
  | nil =>
    have hne : (k' == k) = false := by simpa using h
    simp [tableSet, List.lookup, hne]
  | cons p rest ih =>
    obtain ⟨k0, v0⟩ := p
    by_cases h0 : k0 = k
    · subst h0
      have hne : (k' == k0) = false := by simpa using h
      simp [tableSet, List.lookup, hne]
    · by_cases h1 : (k' == k0) = true
      · simp [tableSet, h0, List.lookup, h1]
      · have h1f : (k' == k0) = false := by simpa using h1
        simp [tableSet, h0, List.lookup, h1f, ih]

/-- C20: `SetMetaStage.Process` changes nothing but the entry of `Key`: the returned message
has the type, version and payload of the input, and under every key other than `Key` its
`Meta` holds what the input's `Meta` held (nothing, where the input held nothing). -/
theorem setMeta_frame (s : SetMetaStage) (ctx : Option GoError) (m : Message) (k : String)
    (hk : k ≠ s.Key) :
    (s.Process ctx m).1.Type_ = m.Type_ ∧ (s.Process ctx m).1.Version = m.Version ∧
      (s.Process ctx m).1.Payload = m.Payload ∧
      (s.Process ctx m).1.Meta.get? k = m.Meta.get? k := by
  obtain ⟨ty, ver, payload, meta⟩ := m
  cases meta with
  | none =>
    have hne : (k == s.Key) = false := by simpa using hk
    simp [SetMetaStage.Process, GoMap.get?, tableSet, List.lookup, hne]
  | some t => simp [SetMetaStage.Process, GoMap.get?, lookup_tableSet_other _ _ _ _ hk]

/-- C20 on the first message of `main`, read at its `source` key. -/
theorem setMeta_frame_witness :
    "source" ≠ demoSetMeta.Key ∧
      (demoSetMeta.Process none { testMessage with Meta := some [("source", "demo")] }).1.Type_
        = "user.created" ∧
      (demoSetMeta.Process none
          { testMessage with Meta := some [("source", "demo")] }).1.Meta.get? "source"
        = ({ testMessage with Meta := some [("source", "demo")] } : Message).Meta.get? "source" :=
  ⟨by decide,
    (setMeta_frame demoSetMeta none { testMessage with Meta := some [("source", "demo")] }
      "source" (by decide)).1,
    (setMeta_frame demoSetMeta none { testMessage with Meta := some [("source", "demo")] }
      "source" (by decide)).2.2.2⟩

/-! ## The order of the preconditions -/

/-- C15, as stated, fails: a pipeline without a source, run with a context that is already
cancelled, returns the cancellation error and not the missing-source error. -/
theorem run_no_source_cancelled_returns_canceled :
    (Pipeline.Run
        ({ Source := none
           Stages := []
           Sink := some (MemoryDestination.toDestination { Messages := [] }) } :
          Pipeline SliceProducer MemoryDestination)
        { cancelAt := some 0 } (fun _ => { notices := false, pick := 0 }) 5).ret
      = Ret.returned (some GoError.Canceled) ∧
    (Pipeline.Run
        ({ Source := none
           Stages := []
           Sink := some (MemoryDestination.toDestination { Messages := [] }) } :
          Pipeline SliceProducer MemoryDestination)
        { cancelAt := some 0 } (fun _ => { notices := false, pick := 0 }) 5).ret
      ≠ Ret.returned (some (GoError.New "pipeline source is required")) := by
  constructor <;> decide

/-- C15, amended: `Run` checks the context first, the source second and the sink last.  With
an already cancelled context it returns the cancellation error whatever is missing; with a
context not cancelled at the call, a missing source gives the missing-source error whether
or not the sink is missing too, and a missing sink gives the missing-sink error only when
the source is there.  Nothing is called in any of these cases. -/
theorem run_precondition_order {π σ : Type} (source : Option (Source π)) (src : Source π)
    (sink : Option (Destination σ)) (stages : List Stage) (ctx : Context)
    (sched : Nat → Choice) (fuel : Nat) (hctx : ctx.Err 0 = none) :
    Pipeline.Run { Source := source, Stages := stages, Sink := sink }
        { cancelAt := some 0 } sched fuel
      = { ret := Ret.returned (some GoError.Canceled), sink := sink.map (fun d => d.state),
          producer := none, calls := [] } ∧
    Pipeline.Run ({ Source := none, Stages := stages, Sink := sink } : Pipeline π σ)
        ctx sched fuel
      = { ret := Ret.returned (some (GoError.New "pipeline source is required")),
          sink := sink.map (fun d => d.state), producer := none, calls := [] } ∧
    Pipeline.Run ({ Source := some src, Stages := stages, Sink := none } : Pipeline π σ)
        ctx sched fuel
      = { ret := Ret.returned (some (GoError.New "pipeline sink is required")),
          sink := none, producer := none, calls := [] } := by
  refine ⟨?_, ?_, ?_⟩
  · simp [Pipeline.Run, Context.Err]
  · simp [Pipeline.Run, hctx]
  · simp [Pipeline.Run, hctx]

/-- The amended C15 with the background context, at a pipeline that has neither a source
nor a sink. -/
theorem run_precondition_order_witness :
    Context.Background.Err 0 = none ∧
      Pipeline.Run
          ({ Source := none
             Stages := [failingStage]
             Sink := none } : Pipeline SliceProducer MemoryDestination)
          Context.Background (fun _ => { notices := false, pick := 0 }) 5
        = { ret := Ret.returned (some (GoError.New "pipeline source is required")),
            sink := (none : Option (Destination MemoryDestination)).map (fun d => d.state),
            producer := none, calls := [] } :=
  ⟨rfl,
    (run_precondition_order none (SliceSource.toSource { Messages := [] }) none
      [failingStage] Context.Background (fun _ => { notices := false, pick := 0 }) 5 rfl).2.1⟩

/-! ## End to end -/

theorem demo_passes_created (a b : GoAny) (meta : GoMap String) :
    passesAll [demoValidation.toStage, demoSetMeta.toStage]
      { Type_ := "user.created", Version := "v1", Payload := some [("id", a), ("email", b)],
        Meta := meta } := by
  intro i hi
  match i, hi with
  | 0, _ =>
    simp [inputOf_zero, ValidationStage.toStage, ValidationStage.Process, demoValidation,
      GoMap.get?, List.lookup, ValidationStage.checkFields]
  | 1, _ => simp [SetMetaStage.toStage, SetMetaStage.Process]

theorem demo_passes_updated (a b : GoAny) (meta : GoMap String) :
    passesAll [demoValidation.toStage, demoSetMeta.toStage]
      { Type_ := "user.updated", Version := "v1", Payload := some [("id", a), ("email", b)],
        Meta := meta } := by
  intro i hi
  match i, hi with
  | 0, _ =>
    simp [inputOf_zero, ValidationStage.toStage, ValidationStage.Process, demoValidation,
      GoMap.get?, List.lookup, ValidationStage.checkFields]
  | 1, _ => simp [SetMetaStage.toStage, SetMetaStage.Process]

theorem demo_thread (ty : String) (a b : GoAny) (meta : GoMap String)
    (h : ty = "user.created" ∨ ty = "user.updated") :
    thread [demoValidation.toStage, demoSetMeta.toStage]
      { Type_ := ty, Version := "v1", Payload := some [("id", a), ("email", b)], Meta := meta }
      = { Type_ := ty, Version := "v1", Payload := some [("id", a), ("email", b)],
          Meta := some (tableSet "processed_by" "demo" (meta.getD [])) } := by
  have hne : ("user.updated" == "user.created") = false := by decide
  rcases h with rfl | rfl <;> cases meta <;>
    simp [thread, ValidationStage.toStage, ValidationStage.Process, demoValidation,
      GoMap.get?, List.lookup, ValidationStage.checkFields, SetMetaStage.toStage,
      SetMetaStage.Process, demoSetMeta, hne]

/-- C11: the pipeline of a slice source with a `user.created` and a `user.updated` message
(version `v1`, payload fields `id` and `email` of any value, any `Meta`), the validation
stage that requires `id` and `email` for both, the metadata stage `processed_by = demo` and
an empty memory destination, run with the background context, returns nil and leaves exactly
the two messages in the destination, in produced order, each tagged `processed_by = demo`. -/
theorem run_end_to_end (a b c d : GoAny) (meta1 meta2 : GoMap String) (sched : Nat → Choice)
    (fuel : Nat) (hfuel : 4 ≤ fuel) :
    Pipeline.Run
        { Source := some (SliceSource.toSource { Messages :=
            [{ Type_ := "user.created", Version := "v1",
               Payload := some [("id", a), ("email", b)], Meta := meta1 },
             { Type_ := "user.updated", Version := "v1",
               Payload := some [("id", c), ("email", d)], Meta := meta2 }] })
          Stages := [demoValidation.toStage, demoSetMeta.toStage]
          Sink := some (MemoryDestination.toDestination { Messages := [] }) }
        Context.Background sched fuel
      = { ret := Ret.returned none
          sink := some { Messages :=
            [{ Type_ := "user.created", Version := "v1",
               Payload := some [("id", a), ("email", b)],
               Meta := some (tableSet "processed_by" "demo" (meta1.getD [])) },
             { Type_ := "user.updated", Version := "v1",
               Payload := some [("id", c), ("email", d)],
               Meta := some (tableSet "processed_by" "demo" (meta2.getD [])) }] }
          producer := some { pending := [], exited := true }
          calls := Call.Start ::
            ([{ Type_ := "user.created", Version := "v1",
                Payload := some [("id", a), ("email", b)], Meta := meta1 },
              { Type_ := "user.updated", Version := "v1",
                Payload := some [("id", c), ("email", d)], Meta := meta2 }].flatMap
              (callsOf [demoValidation.toStage, demoSetMeta.toStage])) } ∧
      GoMap.get? (some (tableSet "processed_by" "demo" (meta1.getD []))) "processed_by"
        = some "demo" ∧
      GoMap.get? (some (tableSet "processed_by" "demo" (meta2.getD []))) "processed_by"
        = some "demo" := by
  refine ⟨?_, lookup_tableSet_self _ _ _, lookup_tableSet_self _ _ _⟩
  obtain ⟨f, rfl⟩ : ∃ f, fuel = 2 + (f + 2) := ⟨fuel - 4, by omega⟩
  have hpass : ∀ m ∈
      [({ Type_ := "user.created", Version := "v1",
          Payload := some [("id", a), ("email", b)], Meta := meta1 } : Message),
       { Type_ := "user.updated", Version := "v1",
         Payload := some [("id", c), ("email", d)], Meta := meta2 }],
      passesAll [demoValidation.toStage, demoSetMeta.toStage] m := by
    intro m hm
    simp only [List.mem_cons, List.mem_singleton, List.not_mem_nil, or_false] at hm
    rcases hm with rfl | rfl
    · exact demo_passes_created a b meta1
    · exact demo_passes_updated c d meta2
  have hloop := loop_pending { Messages :=
      [{ Type_ := "user.created", Version := "v1",
         Payload := some [("id", a), ("email", b)], Meta := meta1 },
       { Type_ := "user.updated", Version := "v1",
         Payload := some [("id", c), ("email", d)], Meta := meta2 }] }
    [demoValidation.toStage, demoSetMeta.toStage] sched (f + 2) true [] _
    { Messages := [] } 1 [Call.Start] hpass
  rw [List.append_nil] at hloop
  simp only [Pipeline.Run, background_err, MemoryDestination.toDestination]
  have hstart : (SliceSource.toSource { Messages :=
      [{ Type_ := "user.created", Version := "v1",
         Payload := some [("id", a), ("email", b)], Meta := meta1 },
       { Type_ := "user.updated", Version := "v1",
         Payload := some [("id", c), ("email", d)], Meta := meta2 }] }).Start
      = { pending :=
        [{ Type_ := "user.created", Version := "v1",
           Payload := some [("id", a), ("email", b)], Meta := meta1 },
         { Type_ := "user.updated", Version := "v1",
           Payload := some [("id", c), ("email", d)], Meta := meta2 }], exited := false } := rfl
  rw [hstart, slice_msgCh, slice_errCh]
  simp only [List.length_cons, List.length_nil, Nat.zero_add, Nat.reduceAdd] at hloop
  rw [hloop, loop_drain]
  simp [demo_thread]

/-- C11 with the values of `main` and the four iterations the loop needs. -/
theorem run_end_to_end_witness :
    4 ≤ 4 ∧
      (Pipeline.Run
        { Source := some (SliceSource.toSource { Messages :=
            [{ Type_ := "user.created", Version := "v1",
               Payload := some [("id", GoAny.str "u_123"),
                 ("email", GoAny.str "alice@example.com")],
               Meta := some [("source", "demo")] },
             { Type_ := "user.updated", Version := "v1",
               Payload := some [("id", GoAny.str "u_123"),
                 ("email", GoAny.str "alice+new@example.com")],
               Meta := some [("source", "demo")] }] })
          Stages := [demoValidation.toStage, demoSetMeta.toStage]
          Sink := some (MemoryDestination.toDestination { Messages := [] }) }
        Context.Background (fun _ => { notices := false, pick := 0 }) 4).sink
      = some { Messages :=
            [{ Type_ := "user.created", Version := "v1",
               Payload := some [("id", GoAny.str "u_123"),
                 ("email", GoAny.str "alice@example.com")],
               Meta := some [("source", "demo"), ("processed_by", "demo")] },
             { Type_ := "user.updated", Version := "v1",
               Payload := some [("id", GoAny.str "u_123"),
                 ("email", GoAny.str "alice+new@example.com")],
               Meta := some [("source", "demo"), ("processed_by", "demo")] }] } :=
  ⟨by decide,
    congrArg RunResult.sink
      (run_end_to_end (GoAny.str "u_123") (GoAny.str "alice@example.com") (GoAny.str "u_123")
        (GoAny.str "alice+new@example.com") (some [("source", "demo")])
        (some [("source", "demo")]) (fun _ => { notices := false, pick := 0 }) 4
        (by decide)).1⟩

/-! ## Lemmas on the loop over any source -/

theorem cancelled_later (ctx : Context) (n m : Nat) (h : (ctx.Err n).isSome = true)
    (hnm : n ≤ m) : ctx.Err m = some GoError.Canceled := by
  unfold Context.Err at h ⊢
  cases hc : ctx.cancelAt with
  | none => simp [hc] at h
  | some t =>
    simp only [hc] at h ⊢
    by_cases ht : t ≤ n
    · have : t ≤ m := by omega
      simp [this]
    · simp [ht] at h

theorem loop_succ {π σ : Type} (src : Source π) (stages : List Stage)
    (consume : σ → Option GoError → Message → σ × Option GoError) (ctx : Context)
    (sched : Nat → Choice) (fuel : Nat) (st : RunState π σ)
    (hwait : (st.msgOpen || st.errOpen) = true) :
    Pipeline.loop src stages consume ctx sched (fuel + 1) st
      = match Pipeline.takes src ctx sched st with
        | none =>
          { st with producer :=
              src.advance st.producer (ctx.Err st.now).isSome (sched st.now).notices }.result
            Ret.blocked
        | some (ev, prod) =>
          match Pipeline.handle stages consume ctx
              { st with producer := prod, now := st.now + 1 } ev with
          | Step.done err st1 => st1.result (Ret.returned err)
          | Step.next st1 => Pipeline.loop src stages consume ctx sched fuel st1 := by
  rw [Pipeline.loop]
  simp only [hwait, Bool.not_true, Bool.false_eq_true, if_false, Pipeline.takes]

theorem loop_closed {π σ : Type} (src : Source π) (stages : List Stage)
    (consume : σ → Option GoError → Message → σ × Option GoError) (ctx : Context)
    (sched : Nat → Choice) (fuel : Nat) (st : RunState π σ)
    (hdone : (st.msgOpen || st.errOpen) = false) :
    Pipeline.loop src stages consume ctx sched fuel st = st.result (Ret.returned none) := by
  rw [Pipeline.loop.eq_def]
  simp [hdone]

theorem takes_cases {π σ : Type} (src : Source π) (ctx : Context) (sched : Nat → Choice)
    (st : RunState π σ) (ev : Event) (prod : π)
    (h : Pipeline.takes src ctx sched st = some (ev, prod)) :
    (ev = Event.ctxDone ∧ (ctx.Err st.now).isSome = true) ∨
      (ev.listened st.msgOpen st.errOpen = true ∧
        (ev, prod) ∈ src.offers
          (src.advance st.producer (ctx.Err st.now).isSome (sched st.now).notices)) := by
  have hmem := List.getElem?_mem h
  unfold Pipeline.ready at hmem
  simp only [List.mem_append, List.mem_filter] at hmem
  rcases hmem with h1 | ⟨h2, h3⟩
  · left
    by_cases hc : (ctx.Err st.now).isSome = true
    · simp only [hc, if_true, List.mem_singleton, Prod.mk.injEq] at h1
      exact ⟨h1.1, hc⟩
    · simp [hc] at h1
  · right
    exact ⟨h3, h2⟩

theorem handle_msg_cancelled {π σ : Type} (stages : List Stage)
    (consume : σ → Option GoError → Message → σ × Option GoError) (ctx : Context)
    (st : RunState π σ) (m : Message) (h : (ctx.Err st.now).isSome = true) :
    Pipeline.handle stages consume ctx st (Event.msgValue m)
      = Step.done (some GoError.Canceled) { st with now := st.now + 1 } := by
  have hc := cancelled_later ctx st.now st.now h (Nat.le_refl _)
  cases stages with
  | nil => simp [Pipeline.handle, Pipeline.runStages, hc]
  | cons stage rest => simp [Pipeline.handle, Pipeline.runStages, hc]

/-! ## A producer error, and cancellation, at a wait -/

/-- C12: for every source, stage list, sink, context and schedule, when the `select` of the
loop takes a non-nil error `e` from the error channel, `Run` returns exactly `e`; the call
record and the sink are as they were at the wait, so nothing is processed or consumed after
the receipt. -/
theorem loop_source_error {π σ : Type} (src : Source π) (stages : List Stage)
    (consume : σ → Option GoError → Message → σ × Option GoError) (ctx : Context)
    (sched : Nat → Choice) (fuel : Nat) (st : RunState π σ) (e : GoError) (prod : π)
    (htake : Pipeline.takes src ctx sched st = some (Event.errValue (some e), prod)) :
    Pipeline.loop src stages consume ctx sched (fuel + 1) st
      = { ret := Ret.returned (some e), sink := some st.sink, producer := some prod,
          calls := st.calls } := by
  have hwait : (st.msgOpen || st.errOpen) = true := by
    rcases takes_cases src ctx sched st _ _ htake with ⟨h, _⟩ | ⟨h, _⟩
    · exact absurd h (by simp)
    · simp only [Event.listened] at h
      simp [h]
  rw [loop_succ _ _ _ _ _ _ _ hwait, htake]
  simp [Pipeline.handle, RunState.result]

/-- C12 on a scripted source that has delivered nothing yet and fails with `errStage`, one
message still behind the error. -/
theorem loop_source_error_witness :
    Pipeline.takes
        (scriptSource [Event.errValue (some errStage), Event.msgValue testMessage])
        Context.Background (fun _ => { notices := false, pick := 0 })
        ({ msgOpen := true, errOpen := true,
           producer := [Event.errValue (some errStage), Event.msgValue testMessage],
           sink := { Messages := [] }, now := 1, calls := [Call.Start] } :
          RunState (List Event) MemoryDestination)
      = some (Event.errValue (some errStage), [Event.msgValue testMessage]) ∧
    Pipeline.loop
        (scriptSource [Event.errValue (some errStage), Event.msgValue testMessage])
        [testValidation.toStage] MemoryDestination.Consume
        Context.Background (fun _ => { notices := false, pick := 0 }) (0 + 1)
        ({ msgOpen := true, errOpen := true,
           producer := [Event.errValue (some errStage), Event.msgValue testMessage],
           sink := { Messages := [] }, now := 1, calls := [Call.Start] } :
          RunState (List Event) MemoryDestination)
      = { ret := Ret.returned (some errStage), sink := some { Messages := [] },
          producer := some [Event.msgValue testMessage], calls := [Call.Start] } :=
  ⟨by decide, loop_source_error _ _ _ _ _ _ _ _ _ (by decide)⟩

/-- C14, as stated, fails: with no message to send and the context cancelled by the time of
the first wait, the `select` may take the two closed channels one after the other, and `Run`
returns nil and not the cancellation error. -/
theorem run_cancelled_returns_nil :
    Context.Err { cancelAt := some 1 } 1 = some GoError.Canceled ∧
    (Pipeline.Run
        ({ Source := some (SliceSource.toSource { Messages := [] })
           Stages := []
           Sink := some (MemoryDestination.toDestination { Messages := [] }) } :
          Pipeline SliceProducer MemoryDestination)
        { cancelAt := some 1 } (fun _ => { notices := true, pick := 1 }) 5).ret
      = Ret.returned none := by
  constructor <;> decide

/-- C14, amended: at a wait where the context is cancelled, if the `select` takes the
`ctx.Done()` case or a message, `Run` returns the cancellation error, and the call record
and the sink are as they were at the wait (a message taken is dropped before any stage or
consumer call). -/
theorem loop_cancelled_take {π σ : Type} (src : Source π) (stages : List Stage)
    (consume : σ → Option GoError → Message → σ × Option GoError) (ctx : Context)
    (sched : Nat → Choice) (fuel : Nat) (st : RunState π σ) (ev : Event) (prod : π)
    (hwait : (st.msgOpen || st.errOpen) = true)
    (hc : (ctx.Err st.now).isSome = true)
    (htake : Pipeline.takes src ctx sched st = some (ev, prod))
    (hev : ev = Event.ctxDone ∨ ev.isMsg = true) :
    Pipeline.loop src stages consume ctx sched (fuel + 1) st
      = { ret := Ret.returned (some GoError.Canceled), sink := some st.sink,
          producer := some prod, calls := st.calls } := by
  have hc1 := cancelled_later ctx st.now (st.now + 1) hc (by omega)
  have hs1 : (ctx.Err (st.now + 1)).isSome = true := by simp [hc1]
  rw [loop_succ _ _ _ _ _ _ _ hwait, htake]
  rcases hev with rfl | hmsg
  · simp [Pipeline.handle, RunState.result, hc1]
  · cases ev with
    | msgValue m =>
      have := handle_msg_cancelled stages consume ctx
        { st with producer := prod, now := st.now + 1 } m hs1
      simp only [this, RunState.result]
    | ctxDone => simp [Event.isMsg] at hmsg
    | errValue _ => simp [Event.isMsg] at hmsg
    | errClosed => simp [Event.isMsg] at hmsg
    | msgClosed => simp [Event.isMsg] at hmsg

/-- The amended C14 on a slice source that offers a message while the context is cancelled:
the `select` takes the message, and the run ends with the cancellation error. -/
theorem loop_cancelled_take_witness :
    (Context.Err { cancelAt := some 1 } 1).isSome = true ∧
    Pipeline.takes (SliceSource.toSource { Messages := [testMessage] })
        { cancelAt := some 1 } (fun _ => { notices := false, pick := 1 })
        ({ msgOpen := true, errOpen := true,
           producer := { pending := [testMessage], exited := false },
           sink := { Messages := [] }, now := 1, calls := [Call.Start] } :
          RunState SliceProducer MemoryDestination)
      = some (Event.msgValue testMessage, { pending := [], exited := false }) ∧
    Pipeline.loop (SliceSource.toSource { Messages := [testMessage] })
        [testValidation.toStage] MemoryDestination.Consume
        { cancelAt := some 1 } (fun _ => { notices := false, pick := 1 }) (0 + 1)
        ({ msgOpen := true, errOpen := true,
           producer := { pending := [testMessage], exited := false },
           sink := { Messages := [] }, now := 1, calls := [Call.Start] } :
          RunState SliceProducer MemoryDestination)
      = { ret := Ret.returned (some GoError.Canceled), sink := some { Messages := [] },
          producer := some { pending := [], exited := false }, calls := [Call.Start] } :=
  ⟨by decide, by decide,
    loop_cancelled_take _ _ _ _ _ _ _ (Event.msgValue testMessage) _ (by decide) (by decide)
      (by decide) (Or.inr (by decide))⟩

/-! ## Nothing is invoked once the context is cancelled -/

theorem range_pending (s : SliceSource) (fuel : Nat) (rest : List Message)
    (pre : List Message) :
    ∀ (got : List Message),
      rangeMessages (SliceSource.toSource s) (pre.length + fuel)
          { pending := pre ++ rest, exited := false } got
        = rangeMessages (SliceSource.toSource s) fuel
          { pending := rest, exited := false } (got ++ pre) := by
  induction pre with
  | nil => intro got; simp
  | cons m pre ih =>
    intro got
    have e1 : (m :: pre).length + fuel = (pre.length + fuel) + 1 := by
      simp only [List.length_cons]; omega
    rw [e1, rangeMessages]
    simp only [SliceSource.toSource, SliceProducer.advance, SliceProducer.offers,
      List.cons_append, Bool.false_eq_true, if_false, Bool.and_self, List.filter_cons,
      Event.listened, if_true, List.filter_nil]
    have := ih (got ++ [m])
    simp only [SliceSource.toSource, List.append_assoc, List.singleton_append] at this
    exact this

theorem range_exhausted (s : SliceSource) (fuel : Nat) (got : List Message) :
    rangeMessages (SliceSource.toSource s) (fuel + 1) { pending := [], exited := false } got
      = ReadResult.done got { pending := [], exited := true } := by
  rw [rangeMessages]
  simp [SliceSource.toSource, SliceProducer.advance, SliceProducer.offers, Event.listened]

/-- C16: with a context that is never cancelled, the message channel of `SliceSource.Start`,
received from until it is closed (which takes `len(Messages) + 1` receives), delivers exactly
the configured messages, each once, in order; the error channel is then found closed, and in
no state of the goroutine does it offer a value. -/
theorem slice_source_emits_all (ms : List Message) (fuel : Nat) (g : SliceProducer)
    (hfuel : ms.length + 1 ≤ fuel) :
    rangeMessages (SliceSource.toSource { Messages := ms }) fuel
        (SliceSource.toSource { Messages := ms }).Start []
      = ReadResult.done ms { pending := [], exited := true } ∧
    receiveErr (SliceSource.toSource { Messages := ms }) { pending := [], exited := true }
      = some Event.errClosed ∧
    (SliceProducer.offers g).filter (fun c => c.1.isErrValue) = [] := by
  refine ⟨?_, ?_, ?_⟩
  · obtain ⟨f, rfl⟩ : ∃ f, fuel = ms.length + (f + 1) := ⟨fuel - (ms.length + 1), by omega⟩
    have h := range_pending { Messages := ms } (f + 1) [] ms []
    rw [List.append_nil] at h
    have hstart : (SliceSource.toSource { Messages := ms }).Start
        = { pending := ms, exited := false } := rfl
    rw [hstart, h, range_exhausted]
    simp
  · simp [receiveErr, SliceSource.toSource, SliceProducer.advance, SliceProducer.offers,
      Event.listened]
  · unfold SliceProducer.offers
    split
    · simp [Event.isErrValue]
    · split <;> simp [Event.isErrValue]

/-- C16 on the two messages of `TestSliceSourceEmitsAllMessages`. -/
theorem slice_source_emits_all_witness :
    [Message.mk "a" "v1" none none, Message.mk "b" "v1" none none].length + 1 ≤ 3 ∧
    rangeMessages
        (SliceSource.toSource
          { Messages := [Message.mk "a" "v1" none none, Message.mk "b" "v1" none none] }) 3
        (SliceSource.toSource
          { Messages := [Message.mk "a" "v1" none none, Message.mk "b" "v1" none none] }).Start
        []
      = ReadResult.done [Message.mk "a" "v1" none none, Message.mk "b" "v1" none none]
          { pending := [], exited := true } :=
  ⟨by decide,
    (slice_source_emits_all [Message.mk "a" "v1" none none, Message.mk "b" "v1" none none] 3
      { pending := [], exited := false } (by decide)).1⟩

/-! ## What becomes of the producer -/

theorem runStages_consume_count (ctx : Context) (stages : List Stage) :
    ∀ (i : Nat) (cur : Message) (now : Nat) (calls : List Call),
      ((Pipeline.runStages ctx stages i cur now calls).calls.filter Call.isConsume)
        = calls.filter Call.isConsume := by
  induction stages with
  | nil => intro i cur now calls; simp [Pipeline.runStages]
  | cons stage rest ih =>
    intro i cur now calls
    unfold Pipeline.runStages
    cases ctx.Err now with
    | some err => simp
    | none =>
      simp only []
      cases hp : stage.Process (ctx.Err (now + 1)) cur with
      | mk next r =>
        cases r with
        | some err => simp [Call.isConsume]
        | none =>
          simp only []
          rw [ih]
          simp [Call.isConsume]

theorem handle_msg_shape {π σ : Type} (stages : List Stage)
    (consume : σ → Option GoError → Message → σ × Option GoError) (ctx : Context)
    (st : RunState π σ) (m : Message) :
    (∃ e st1, Pipeline.handle stages consume ctx st (Event.msgValue m)
        = Step.done (some e) st1) ∨
      (∃ st1, Pipeline.handle stages consume ctx st (Event.msgValue m) = Step.next st1 ∧
        st1.msgOpen = st.msgOpen ∧ st1.errOpen = st.errOpen ∧ st1.producer = st.producer ∧
        (st1.calls.filter Call.isConsume).length
          = (st.calls.filter Call.isConsume).length + 1) := by
  unfold Pipeline.handle
  simp only []
  cases hr : (Pipeline.runStages ctx stages 0 m st.now st.calls).err with
  | some err => exact Or.inl ⟨err, _, rfl⟩
  | none =>
    simp only []
    cases hc : ctx.Err (Pipeline.runStages ctx stages 0 m st.now st.calls).now with
    | some err => exact Or.inl ⟨err, _, rfl⟩
    | none =>
      simp only []
      cases hs : consume st.sink
          (ctx.Err ((Pipeline.runStages ctx stages 0 m st.now st.calls).now + 1))
          (Pipeline.runStages ctx stages 0 m st.now st.calls).current with
      | mk sink r =>
        cases r with
        | some err => exact Or.inl ⟨err, _, rfl⟩
        | none =>
          refine Or.inr ⟨_, rfl, rfl, rfl, rfl, ?_⟩
          simp [runStages_consume_count, Call.isConsume]

theorem slice_offers_cases (g : SliceProducer) (ev : Event) (prod : SliceProducer)
    (h : (ev, prod) ∈ SliceProducer.offers g) :
    (g.exited = true ∧ prod = g ∧ (ev = Event.errClosed ∨ ev = Event.msgClosed)) ∨
      (g.exited = false ∧ ∃ m, ev = Event.msgValue m) := by
  unfold SliceProducer.offers at h
  by_cases hx : g.exited = true
  · simp only [hx, if_true, List.mem_cons, Prod.mk.injEq, List.mem_nil_iff, or_false] at h
    rcases h with ⟨h1, h2⟩ | ⟨h1, h2⟩
    · exact Or.inl ⟨hx, h2, Or.inl h1⟩
    · exact Or.inl ⟨hx, h2, Or.inr h1⟩
  · have hf : g.exited = false := by simpa using hx
    simp only [hf, Bool.false_eq_true, if_false] at h
    cases hp : g.pending with
    | nil => simp [hp] at h
    | cons m rest =>
      simp only [hp, List.mem_singleton, Prod.mk.injEq] at h
      exact Or.inr ⟨hf, m, h.1⟩

theorem slice_advance_exited (g : SliceProducer) (cancelled notices : Bool)
    (h : g.exited = true) : SliceProducer.advance g cancelled notices = g := by
  simp [SliceProducer.advance, h]

theorem loop_success_exited {σ : Type} (s : SliceSource) (stages : List Stage)
    (consume : σ → Option GoError → Message → σ × Option GoError) (ctx : Context)
    (sched : Nat → Choice) :
    ∀ (fuel : Nat) (st : RunState SliceProducer σ),
      ((st.msgOpen && st.errOpen) = false → st.producer.exited = true) →
      (Pipeline.loop (SliceSource.toSource s) stages consume ctx sched fuel st).ret
        = Ret.returned none →
      (Pipeline.loop (SliceSource.toSource s) stages consume ctx sched fuel st).producer.map
          (fun p => p.exited) = some true := by
  intro fuel
  induction fuel with
  | zero =>
    intro st hinv hret
    rw [Pipeline.loop.eq_def] at hret ⊢
    by_cases hwait : (st.msgOpen || st.errOpen) = true
    · simp [hwait, RunState.result] at hret
    · have hm : st.msgOpen = false := by
        cases h : st.msgOpen <;> simp [h] at hwait ⊢
      simp [hwait, RunState.result, hinv (by simp [hm])]
  | succ fuel ih =>
    intro st hinv hret
    by_cases hwait : (st.msgOpen || st.errOpen) = true
    · rw [loop_succ _ _ _ _ _ _ _ hwait] at hret ⊢
      cases htake : Pipeline.takes (SliceSource.toSource s) ctx sched st with
      | none => simp [htake, RunState.result] at hret
      | some c =>
        obtain ⟨ev, prod⟩ := c
        simp only [htake] at hret ⊢
        rcases takes_cases _ ctx sched st ev prod htake with ⟨hev, hc⟩ | ⟨_, hmem⟩
        · subst hev
          have hc1 := cancelled_later ctx st.now (st.now + 1) hc (by omega)
          simp [Pipeline.handle, RunState.result, hc1] at hret
        · rcases slice_offers_cases _ ev prod hmem with ⟨hx, hp, hev⟩ | ⟨hx, m, hev⟩
          · have hpx : prod.exited = true := by rw [hp]; exact hx
            rcases hev with rfl | rfl
            · simp only [Pipeline.handle] at hret ⊢
              exact ih _ (fun _ => hpx) hret
            · simp only [Pipeline.handle] at hret ⊢
              exact ih _ (fun _ => hpx) hret
          · subst hev
            have hboth : (st.msgOpen && st.errOpen) = true := by
              by_contra hnot
              have hex := hinv (by simpa using hnot)
              have hadv := slice_advance_exited st.producer (ctx.Err st.now).isSome
                (sched st.now).notices hex
              simp only [SliceSource.toSource] at hx
              rw [hadv, hex] at hx
              exact absurd hx (by simp)
            rcases handle_msg_shape stages consume ctx
                { st with producer := prod, now := st.now + 1 } m with
              ⟨e, st1, h1⟩ | ⟨st1, h1, hmo, heo, _, _⟩
            · simp [h1, RunState.result] at hret
            · simp only [h1] at hret ⊢
              refine ih st1 ?_ hret
              intro hnb
              rw [hmo, heo] at hnb
              simp only [] at hnb
              rw [hboth] at hnb
              exact absurd hnb (by simp)
    · have hdone : (st.msgOpen || st.errOpen) = false := by simpa using hwait
      have hm : st.msgOpen = false := by
        cases h : st.msgOpen <;> simp [h] at hdone ⊢
      rw [loop_closed _ _ _ _ _ _ _ hdone]
      simp [RunState.result, hinv (by simp [hm])]

/-- C17, as stated, fails: `Run` has returned on a stage error with one message unsent and
the context never cancelled; the goroutine of the slice source has not returned (its
channels are not closed), and, the context showing no cancellation, it stays where it is. -/
theorem run_stage_error_leaves_producer :
    (Pipeline.Run
        ({ Source := some (SliceSource.toSource { Messages := [plainMessage, testMessage] })
           Stages := [failingStage]
           Sink := some (MemoryDestination.toDestination { Messages := [] }) } :
          Pipeline SliceProducer MemoryDestination)
        Context.Background (fun _ => { notices := true, pick := 0 }) 5)
      = { ret := Ret.returned (some errStage), sink := some { Messages := [] },
          producer := some { pending := [testMessage], exited := false },
          calls := [Call.Start, Call.Process 0 plainMessage] } ∧
    SliceProducer.advance { pending := [testMessage], exited := false } false true
      = { pending := [testMessage], exited := false } ∧
    SliceProducer.advance { pending := [testMessage], exited := false } false false
      = { pending := [testMessage], exited := false } := by
  refine ⟨by decide, by decide, by decide⟩

theorem slice_advance_pending (g : SliceProducer) (cancelled notices : Bool) :
    (SliceProducer.advance g cancelled notices).pending = g.pending := by
  unfold SliceProducer.advance
  by_cases hx : g.exited = true
  · simp [hx]
  · cases hp : g.pending with
    | nil => simp [hx, hp]
    | cons m rest =>
      by_cases hc : (cancelled && notices) = true
      · simp [hx, hp, hc]
      · simp [hx, hp, hc]

theorem slice_offers_pending (g : SliceProducer) (ev : Event) (prod : SliceProducer)
    (h : (ev, prod) ∈ SliceProducer.offers g) : prod.pending <:+ g.pending := by
  unfold SliceProducer.offers at h
  by_cases hx : g.exited = true
  · simp only [hx, if_true, List.mem_cons, Prod.mk.injEq, List.mem_nil_iff, or_false] at h
    rcases h with ⟨_, h2⟩ | ⟨_, h2⟩ <;> rw [h2]
  · have hf : g.exited = false := by simpa using hx
    simp only [hf, Bool.false_eq_true, if_false] at h
    cases hp : g.pending with
    | nil => simp [hp] at h
    | cons m rest =>
      simp only [hp, List.mem_singleton, Prod.mk.injEq] at h
      rw [h.2]
      exact List.suffix_cons m rest

theorem handle_producer {π σ : Type} (stages : List Stage)
    (consume : σ → Option GoError → Message → σ × Option GoError) (ctx : Context)
    (st : RunState π σ) (ev : Event) :
    (∃ err st1, Pipeline.handle stages consume ctx st ev = Step.done err st1 ∧
        st1.producer = st.producer) ∨
      (∃ st1, Pipeline.handle stages consume ctx st ev = Step.next st1 ∧
        st1.producer = st.producer) := by
  cases ev with
  | ctxDone => exact Or.inl ⟨_, _, rfl, rfl⟩
  | errClosed => exact Or.inr ⟨_, rfl, rfl⟩
  | msgClosed => exact Or.inr ⟨_, rfl, rfl⟩
  | errValue err =>
    cases err with
    | none => exact Or.inr ⟨_, rfl, rfl⟩
    | some e => exact Or.inl ⟨_, _, rfl, rfl⟩
  | msgValue m =>
    unfold Pipeline.handle
    simp only []
    cases hr : (Pipeline.runStages ctx stages 0 m st.now st.calls).err with
    | some err => exact Or.inl ⟨_, _, rfl, rfl⟩
    | none =>
      simp only []
      cases hc : ctx.Err (Pipeline.runStages ctx stages 0 m st.now st.calls).now with
      | some err => exact Or.inl ⟨_, _, rfl, rfl⟩
      | none =>
        simp only []
        cases hs : consume st.sink
            (ctx.Err ((Pipeline.runStages ctx stages 0 m st.now st.calls).now + 1))
            (Pipeline.runStages ctx stages 0 m st.now st.calls).current with
        | mk sink r =>
          cases r with
          | some err => exact Or.inl ⟨_, _, rfl, rfl⟩
          | none => exact Or.inr ⟨_, rfl, rfl⟩

theorem loop_pending_suffix {σ : Type} (s : SliceSource) (stages : List Stage)
    (consume : σ → Option GoError → Message → σ × Option GoError) (ctx : Context)
    (sched : Nat → Choice) (ms : List Message) :
    ∀ (fuel : Nat) (st : RunState SliceProducer σ), st.producer.pending <:+ ms →
      ∀ g, (Pipeline.loop (SliceSource.toSource s) stages consume ctx sched fuel st).producer
          = some g → g.pending <:+ ms := by
  intro fuel
  induction fuel with
  | zero =>
    intro st hsuf g hg
    rw [Pipeline.loop.eq_def] at hg
    by_cases hwait : (st.msgOpen || st.errOpen) = true
    · simp only [hwait, Bool.not_true, Bool.false_eq_true, if_false, RunState.result,
        Option.some.injEq] at hg
      rw [← hg]; exact hsuf
    · simp only [hwait, Bool.not_false, if_true, RunState.result, Option.some.injEq] at hg
      rw [← hg]; exact hsuf
  | succ fuel ih =>
    intro st hsuf g hg
    by_cases hwait : (st.msgOpen || st.errOpen) = true
    · rw [loop_succ _ _ _ _ _ _ _ hwait] at hg
      cases htake : Pipeline.takes (SliceSource.toSource s) ctx sched st with
      | none =>
        simp only [htake, RunState.result, Option.some.injEq] at hg
        rw [← hg]
        simp only [SliceSource.toSource, slice_advance_pending]
        exact hsuf
      | some c =>
        obtain ⟨ev, prod⟩ := c
        simp only [htake] at hg
        have hprod : prod.pending <:+ ms := by
          rcases takes_cases _ ctx sched st ev prod htake with ⟨_, _⟩ | ⟨_, hmem⟩
          · have hmem := List.getElem?_mem htake
            unfold Pipeline.ready at hmem
            simp only [List.mem_append, List.mem_filter] at hmem
            rcases hmem with h1 | ⟨h2, _⟩
            · by_cases hc : (ctx.Err st.now).isSome = true
              · simp only [hc, if_true, List.mem_singleton, Prod.mk.injEq] at h1
                rw [h1.2]
                simp only [SliceSource.toSource, slice_advance_pending]
                exact hsuf
              · simp [hc] at h1
            · have h3 := slice_offers_pending _ ev prod h2
              simp only [SliceSource.toSource, slice_advance_pending] at h3
              exact List.IsSuffix.trans h3 hsuf
          · have h3 := slice_offers_pending _ ev prod hmem
            simp only [SliceSource.toSource, slice_advance_pending] at h3
            exact List.IsSuffix.trans h3 hsuf
        rcases handle_producer stages consume ctx
            { st with producer := prod, now := st.now + 1 } ev with
          ⟨err, st1, h1, hp1⟩ | ⟨st1, h1, hp1⟩
        · simp only [h1, RunState.result, Option.some.injEq] at hg
          rw [← hg, hp1]; exact hprod
        · simp only [h1] at hg
          exact ih st1 (by rw [hp1]; exact hprod) g hg
    · have hdone : (st.msgOpen || st.errOpen) = false := by simpa using hwait
      rw [loop_closed _ _ _ _ _ _ _ hdone] at hg
      simp only [RunState.result, Option.some.injEq] at hg
      rw [← hg]; exact hsuf

theorem taken_succ {π σ : Type} (src : Source π) (stages : List Stage)
    (consume : σ → Option GoError → Message → σ × Option GoError) (ctx : Context)
    (sched : Nat → Choice) (fuel : Nat) (st : RunState π σ)
    (hwait : (st.msgOpen || st.errOpen) = true) :
    Pipeline.taken src stages consume ctx sched (fuel + 1) st
      = match Pipeline.takes src ctx sched st with
        | none => []
        | some (ev, prod) =>
          match Pipeline.handle stages consume ctx
              { st with producer := prod, now := st.now + 1 } ev with
          | Step.done _ _ => [ev]
          | Step.next st1 => ev :: Pipeline.taken src stages consume ctx sched fuel st1 := by
  rw [Pipeline.taken]
  simp only [hwait, Bool.not_true, Bool.false_eq_true, if_false, Pipeline.takes]

theorem taken_closed {π σ : Type} (src : Source π) (stages : List Stage)
    (consume : σ → Option GoError → Message → σ × Option GoError) (ctx : Context)
    (sched : Nat → Choice) (fuel : Nat) (st : RunState π σ)
    (hdone : (st.msgOpen || st.errOpen) = false) :
    Pipeline.taken src stages consume ctx sched fuel st = [] := by
  rw [Pipeline.taken.eq_def]
  simp [hdone]

theorem err_cancelAt (ctx : Context) (now : Nat) (h : (ctx.Err now).isSome = true) :
    ctx.cancelAt.isSome = true := by
  unfold Context.Err at h
  cases hc : ctx.cancelAt with
  | none => simp [hc] at h
  | some t => rfl

theorem taken_ctxDone_cancelled {π σ : Type} (src : Source π) (stages : List Stage)
    (consume : σ → Option GoError → Message → σ × Option GoError) (ctx : Context)
    (sched : Nat → Choice) :
    ∀ (fuel : Nat) (st : RunState π σ),
      Event.ctxDone ∈ Pipeline.taken src stages consume ctx sched fuel st →
      ctx.cancelAt.isSome = true := by
  intro fuel
  induction fuel with
  | zero =>
    intro st hmem
    rw [Pipeline.taken.eq_def] at hmem
    by_cases hwait : (st.msgOpen || st.errOpen) = true <;> simp [hwait] at hmem
  | succ fuel ih =>
    intro st hmem
    by_cases hwait : (st.msgOpen || st.errOpen) = true
    · rw [taken_succ _ _ _ _ _ _ _ hwait] at hmem
      cases htake : Pipeline.takes src ctx sched st with
      | none => simp [htake] at hmem
      | some c =>
        obtain ⟨ev, prod⟩ := c
        simp only [htake] at hmem
        have hev : ev = Event.ctxDone → ctx.cancelAt.isSome = true := by
          intro he
          rcases takes_cases _ ctx sched st ev prod htake with ⟨_, hc⟩ | ⟨hl, _⟩
          · exact err_cancelAt ctx _ hc
          · subst he
            simp [Event.listened] at hl
        cases hh : Pipeline.handle stages consume ctx
            { st with producer := prod, now := st.now + 1 } ev with
        | done e st1 =>
          simp only [hh, List.mem_singleton] at hmem
          exact hev hmem.symm
        | next st1 =>
          simp only [hh, List.mem_cons] at hmem
          rcases hmem with h1 | h2
          · exact hev h1.symm
          · exact ih st1 h2
    · have hdone : (st.msgOpen || st.errOpen) = false := by simpa using hwait
      rw [taken_closed _ _ _ _ _ _ _ hdone] at hmem
      simp at hmem

/-- C17, amended: once `Run` over a slice source has returned with the producer in state
`g`, whatever the stages, the sink, the context and the schedule: the messages `g` has not
sent are the last ones of the source; if `Run` returned nil the goroutine has returned and
both channels are closed; if no message is left unsent, or if the context is cancelled at
some time, as it is when a `select` of `Run` took `ctx.Done()`, the goroutine left to itself
returns and closes both channels.  (Left out: a return on an error with messages unsent and
a context that is never cancelled.) -/
theorem slice_producer_released {σ : Type} (ms : List Message) (stages : List Stage)
    (sink : Destination σ) (ctx : Context) (sched : Nat → Choice) (fuel : Nat)
    (err : Option GoError) (g : SliceProducer)
    (hret : (Pipeline.Run
        { Source := some (SliceSource.toSource { Messages := ms })
          Stages := stages
          Sink := some sink } ctx sched fuel).ret = Ret.returned err)
    (hprod : (Pipeline.Run
        { Source := some (SliceSource.toSource { Messages := ms })
          Stages := stages
          Sink := some sink } ctx sched fuel).producer = some g) :
    g.pending <:+ ms ∧
      (err = none → g.exited = true) ∧
      (g.pending = [] → (g.afterRun ctx.cancelAt.isSome).exited = true) ∧
      (ctx.cancelAt.isSome = true → (g.afterRun ctx.cancelAt.isSome).exited = true) ∧
      (Event.ctxDone ∈ Pipeline.events
          { Source := some (SliceSource.toSource { Messages := ms })
            Stages := stages
            Sink := some sink } ctx sched fuel →
        ctx.cancelAt.isSome = true ∧ (g.afterRun ctx.cancelAt.isSome).exited = true) := by
  have hrel : ctx.cancelAt.isSome = true →
      (g.afterRun ctx.cancelAt.isSome).exited = true := by
    intro hc
    unfold SliceProducer.afterRun SliceProducer.advance
    by_cases hx : g.exited = true
    · simp [hx]
    · cases hp : g.pending <;> simp [hx, hp, hc]
  refine ⟨?_, ?_, ?_, hrel, ?_⟩
  · unfold Pipeline.Run at hprod
    cases hc : ctx.Err 0 with
    | some e => simp [hc] at hprod
    | none =>
      simp only [hc] at hprod
      exact loop_pending_suffix _ _ _ _ _ ms _ _ (List.suffix_refl _) g hprod
  · intro he
    subst he
    unfold Pipeline.Run at hret hprod
    cases hc : ctx.Err 0 with
    | some e => simp [hc] at hret
    | none =>
      simp only [hc] at hret hprod
      have h := loop_success_exited _ _ _ _ _ _ _
        (fun h => absurd h (by simp [slice_msgCh, slice_errCh])) hret
      rw [hprod] at h
      simpa using h
  · intro hp
    unfold SliceProducer.afterRun SliceProducer.advance
    by_cases hx : g.exited = true
    · simp [hx]
    · simp [hx, hp]
  · intro hmem
    have hc : ctx.cancelAt.isSome = true := by
      unfold Pipeline.events at hmem
      cases hc0 : ctx.Err 0 with
      | some e => simp [hc0] at hmem
      | none =>
        simp only [hc0] at hmem
        exact taken_ctxDone_cancelled _ _ _ _ _ _ _ hmem
    exact ⟨hc, hrel hc⟩

/-- The amended C17 on a run that ends on a stage error at its last message: nothing is
left unsent, and the goroutine, not yet returned when `Run` returns, returns on its own. -/
theorem slice_producer_released_witness :
    (Pipeline.Run
        { Source := some (SliceSource.toSource { Messages := [testMessage, plainMessage] })
          Stages := [testValidation.toStage]
          Sink := some (MemoryDestination.toDestination { Messages := [] }) }
        Context.Background (fun _ => { notices := true, pick := 0 }) 5).ret
      = Ret.returned
          (some (GoError.Errorf "%w: type=%q version=%q" ErrSchemaNotFound ["x", "v1"])) ∧
    (Pipeline.Run
        { Source := some (SliceSource.toSource { Messages := [testMessage, plainMessage] })
          Stages := [testValidation.toStage]
          Sink := some (MemoryDestination.toDestination { Messages := [] }) }
        Context.Background (fun _ => { notices := true, pick := 0 }) 5).producer
      = some { pending := [], exited := false } ∧
    ((SliceProducer.mk [] false).afterRun Context.Background.cancelAt.isSome).exited
      = true :=
  ⟨by decide, by decide,
    (slice_producer_released [testMessage, plainMessage] [testValidation.toStage]
      (MemoryDestination.toDestination { Messages := [] }) Context.Background
      (fun _ => { notices := true, pick := 0 }) 5
      (some (GoError.Errorf "%w: type=%q version=%q" ErrSchemaNotFound ["x", "v1"]))
      { pending := [], exited := false } (by decide) (by decide)).2.2.1 rfl⟩

/-! ## Success means both channels were closed -/

theorem loop_success_trace {π σ : Type} (src : Source π) (stages : List Stage)
    (consume : σ → Option GoError → Message → σ × Option GoError) (ctx : Context)
    (sched : Nat → Choice) :
    ∀ (fuel : Nat) (st : RunState π σ),
      (Pipeline.loop src stages consume ctx sched fuel st).ret = Ret.returned none →
      (st.errOpen = true →
          Event.errClosed ∈ Pipeline.taken src stages consume ctx sched fuel st) ∧
        (st.msgOpen = true →
          Event.msgClosed ∈ Pipeline.taken src stages consume ctx sched fuel st) ∧
        ((Pipeline.loop src stages consume ctx sched fuel st).calls.filter
            Call.isConsume).length
          = (st.calls.filter Call.isConsume).length +
            ((Pipeline.taken src stages consume ctx sched fuel st).filter
              Event.isMsg).length := by
  intro fuel
  induction fuel with
  | zero =>
    intro st hret
    by_cases hwait : (st.msgOpen || st.errOpen) = true
    · rw [Pipeline.loop.eq_def] at hret
      simp [hwait, RunState.result] at hret
    · have hdone : (st.msgOpen || st.errOpen) = false := by simpa using hwait
      rw [loop_closed _ _ _ _ _ _ _ hdone, taken_closed _ _ _ _ _ _ _ hdone]
      have hm : st.msgOpen = false := by
        cases h : st.msgOpen <;> simp [h] at hdone ⊢
      have he : st.errOpen = false := by
        cases h : st.errOpen <;> simp [h] at hdone ⊢
      simp [RunState.result, hm, he]
  | succ fuel ih =>
    intro st hret
    by_cases hwait : (st.msgOpen || st.errOpen) = true
    · rw [loop_succ _ _ _ _ _ _ _ hwait] at hret ⊢
      rw [taken_succ _ _ _ _ _ _ _ hwait]
      cases htake : Pipeline.takes src ctx sched st with
      | none => simp [htake, RunState.result] at hret
      | some c =>
        obtain ⟨ev, prod⟩ := c
        simp only [htake] at hret ⊢
        rcases takes_cases _ ctx sched st ev prod htake with ⟨hev, hc⟩ | ⟨hl, _⟩
        · subst hev
          have hc1 := cancelled_later ctx st.now (st.now + 1) hc (by omega)
          simp [Pipeline.handle, RunState.result, hc1] at hret
        · cases ev with
          | ctxDone => simp [Event.listened] at hl
          | errClosed =>
            simp only [Pipeline.handle] at hret ⊢
            obtain ⟨_, h2, h3⟩ := ih _ hret
            refine ⟨fun _ => by simp, fun hm => ?_, ?_⟩
            · exact List.mem_cons_of_mem _ (h2 hm)
            · rw [h3]; simp [Event.isMsg]
          | msgClosed =>
            simp only [Pipeline.handle] at hret ⊢
            obtain ⟨h1, _, h3⟩ := ih _ hret
            refine ⟨fun he => ?_, fun _ => by simp, ?_⟩
            · exact List.mem_cons_of_mem _ (h1 he)
            · rw [h3]; simp [Event.isMsg]
          | errValue err =>
            cases err with
            | some e => simp [Pipeline.handle, RunState.result] at hret
            | none =>
              simp only [Pipeline.handle] at hret ⊢
              obtain ⟨h1, h2, h3⟩ := ih _ hret
              refine ⟨fun he => ?_, fun hm => ?_, ?_⟩
              · exact List.mem_cons_of_mem _ (h1 he)
              · exact List.mem_cons_of_mem _ (h2 hm)
              · rw [h3]; simp [Event.isMsg]
          | msgValue m =>
            rcases handle_msg_shape stages consume ctx
                { st with producer := prod, now := st.now + 1 } m with
              ⟨e, st1, h1⟩ | ⟨st1, h1, hmo, heo, _, hcount⟩
            · simp [h1, RunState.result] at hret
            · simp only [h1] at hret ⊢
              obtain ⟨i1, i2, i3⟩ := ih st1 hret
              refine ⟨fun he => ?_, fun hm => ?_, ?_⟩
              · exact List.mem_cons_of_mem _ (i1 (by rw [heo]; exact he))
              · exact List.mem_cons_of_mem _ (i2 (by rw [hmo]; exact hm))
              · rw [i3, hcount]
                simp [Event.isMsg]
                omega
    · have hdone : (st.msgOpen || st.errOpen) = false := by simpa using hwait
      rw [loop_closed _ _ _ _ _ _ _ hdone, taken_closed _ _ _ _ _ _ _ hdone]
      have hm : st.msgOpen = false := by
        cases h : st.msgOpen <;> simp [h] at hdone ⊢
      have he : st.errOpen = false := by
        cases h : st.errOpen <;> simp [h] at hdone ⊢
      simp [RunState.result, hm, he]

/-- C18, as stated, fails: a source whose `Start` returns a nil error channel and a message
channel that delivers one message and is closed makes `Run` return nil although the error
sequence never signalled completion. -/
theorem run_nil_error_channel_succeeds :
    (Pipeline.Run
        ({ Source := some (scriptSourceNoErr [Event.msgValue testMessage, Event.msgClosed])
           Stages := [testValidation.toStage]
           Sink := some (MemoryDestination.toDestination { Messages := [] }) } :
          Pipeline (List Event) MemoryDestination)
        Context.Background (fun _ => { notices := false, pick := 0 }) 5).ret
      = Ret.returned none ∧
    Event.errClosed ∉ Pipeline.events
        ({ Source := some (scriptSourceNoErr [Event.msgValue testMessage, Event.msgClosed])
           Stages := [testValidation.toStage]
           Sink := some (MemoryDestination.toDestination { Messages := [] }) } :
          Pipeline (List Event) MemoryDestination)
        Context.Background (fun _ => { notices := false, pick := 0 }) 5 := by
  constructor <;> decide

/-- C18, amended: for every source, stage list, sink, context and schedule, when `Run`
returns nil its `select`s have taken the close of each channel that `Start` returned
non-nil (the close of the error channel and the close of the message channel, when both
are non-nil), and the consumer was called once for every message received.  Taking the
close of one channel only sets that channel variable to nil and goes on to the next
iteration; with the other channel still listened to, the loop condition holds and the run
has not ended. -/
theorem run_success_only_at_completion {π σ : Type} (src : Source π) (stages : List Stage)
    (sink : Destination σ) (ctx : Context) (sched : Nat → Choice) (fuel : Nat)
    (st : RunState π σ)
    (hret : (Pipeline.Run { Source := some src, Stages := stages, Sink := some sink }
        ctx sched fuel).ret = Ret.returned none) :
    ((src.errCh = true → Event.errClosed ∈ Pipeline.events
        { Source := some src, Stages := stages, Sink := some sink } ctx sched fuel) ∧
      (src.msgCh = true → Event.msgClosed ∈ Pipeline.events
        { Source := some src, Stages := stages, Sink := some sink } ctx sched fuel) ∧
      ((Pipeline.Run { Source := some src, Stages := stages, Sink := some sink }
          ctx sched fuel).calls.filter Call.isConsume).length
        = ((Pipeline.events { Source := some src, Stages := stages, Sink := some sink }
          ctx sched fuel).filter Event.isMsg).length) ∧
    (Pipeline.handle stages sink.Consume ctx st Event.errClosed
        = Step.next { st with errOpen := false } ∧
      (Pipeline.loop src stages sink.Consume ctx sched 0
        { st with errOpen := false, msgOpen := true }).ret = Ret.outOfFuel) ∧
    (Pipeline.handle stages sink.Consume ctx st Event.msgClosed
        = Step.next { st with msgOpen := false } ∧
      (Pipeline.loop src stages sink.Consume ctx sched 0
        { st with msgOpen := false, errOpen := true }).ret = Ret.outOfFuel) := by
  refine ⟨?_, ⟨rfl, ?_⟩, ⟨rfl, ?_⟩⟩
  · unfold Pipeline.Run at hret ⊢
    unfold Pipeline.events
    cases hc : ctx.Err 0 with
    | some err => simp [hc] at hret
    | none =>
      simp only [hc] at hret ⊢
      obtain ⟨h1, h2, h3⟩ := loop_success_trace _ _ _ _ _ _ _ hret
      refine ⟨h1, h2, ?_⟩
      rw [h3]
      simp [Call.isConsume]
  · rw [Pipeline.loop.eq_def]
    simp [RunState.result]
  · rw [Pipeline.loop.eq_def]
    simp [RunState.result]

/-- The amended C18 on the test's pipeline, the `select` taking the message channel's close
first: both channels of a slice source are non-nil and both closes are taken. -/
theorem run_success_only_at_completion_witness :
    (Pipeline.Run
        { Source := some (SliceSource.toSource { Messages := [testMessage] })
          Stages := [testValidation.toStage, testSetMeta.toStage]
          Sink := some (MemoryDestination.toDestination { Messages := [] }) }
        Context.Background (fun _ => { notices := false, pick := 1 }) 3).ret
      = Ret.returned none ∧
    (SliceSource.toSource { Messages := [testMessage] }).errCh = true ∧
    Event.errClosed ∈ Pipeline.events
        { Source := some (SliceSource.toSource { Messages := [testMessage] })
          Stages := [testValidation.toStage, testSetMeta.toStage]
          Sink := some (MemoryDestination.toDestination { Messages := [] }) }
        Context.Background (fun _ => { notices := false, pick := 1 }) 3 :=
  ⟨by decide, rfl,
    (run_success_only_at_completion (SliceSource.toSource { Messages := [testMessage] })
      [testValidation.toStage, testSetMeta.toStage]
      (MemoryDestination.toDestination { Messages := [] })
      Context.Background (fun _ => { notices := false, pick := 1 }) 3
      { msgOpen := true, errOpen := true, producer := { pending := [], exited := false },
        sink := { Messages := [] }, now := 1, calls := [] }
      (by decide)).1.1 rfl⟩

/-! ## Lemmas on map objects -/

end PipelineStart
